import Mathlib

/-!
# FFT planner fragments: rank-splitting RDFT solver and threaded hc2hc-dif solver

A shallow embedding of `rdft/rank-geq2.c` and `threads/hc2hc-dif.c`.

Conventions of the embedding:

* the C type `uint` is a natural number below `2 ^ 32`; every `uint` operation
  of the source is written with an explicit reduction modulo `2 ^ 32`;
* a pointer `R *` is an integer element address; `p + e` adds the value of the
  offset expression `e` (for an `uint` offset, its unsigned value); results
  about pointers are stated for these addresses in the range where no offset
  wraps, and modulo `2 ^ 32` (32-bit addresses) without that restriction;
* a C array reached through a pointer (`buddies`, `dims`) is a function from
  the element index to the element;
* C predicates returning `int` 0/1 return `Bool`; an output parameter `uint *rp`
  is threaded through as an extra argument (old value) and an extra result
  (new value);
* functions, macros and tables of the library that are used but not defined in
  the two files are parameters of the definitions that use them.
-/

set_option autoImplicit false

namespace FFT

/-! ## Machine integers -/

/-- Modulus of the C type `uint`. -/
def UINT_MOD : Nat := 4294967296

/-- Value of an integer expression converted to `uint`. -/
def to_uint (x : Int) : Nat := (x % 4294967296).toNat

/-- Value of an integer expression converted to `int` (two's complement). -/
def to_int (x : Int) : Int := (x + 2147483648) % 4294967296 - 2147483648

/-- The `uint` product `a * b`. -/
def umul (a b : Nat) : Nat := (a * b) % UINT_MOD

/-- The `uint` sum `a + b`. -/
def uadd (a b : Nat) : Nat := (a + b) % UINT_MOD

/-- The `uint` difference `a - b`. -/
def usub (a b : Nat) : Nat := (a + (UINT_MOD - b % UINT_MOD)) % UINT_MOD

/-- The product `u * i` of an `uint` and an `int`: the `int` is converted to
`uint` and the product is taken in `uint`. -/
def umul_int (u : Nat) (i : Int) : Nat := umul u (to_uint i)

/-! ## Data model shared by the two solvers -/

/-- One dimension record `iodim`: extent, input stride, output stride. -/
structure iodim where
  n : Nat
  is : Int
  os : Int

/-- The geometry `tensor`: rank and the array of dimension records. -/
structure tensor where
  rnk : Nat
  dims : Nat → iodim

/-- The fields of `problem_rdft` that the two solvers read. `kind` is the
address of the per-dimension kind array. -/
structure problem_rdft where
  sz : tensor
  vecsz : tensor
  I : Int
  O : Int
  kind : Int

/-- A `problem *`: either an RDFT problem (the case `RDFTP(p_)`) or a problem of
another class. -/
inductive problem where
  | rdft (p : problem_rdft)
  | other

/-- The planner knobs read by the two solvers: the worker count `nthr`, the
flag tested by `NO_RANK_SPLITSP` and the flag tested by `DESTROY_INPUTP`. -/
structure planner where
  nthr : Nat
  no_rank_splits : Bool
  destroy_input : Bool

/-- The score scale `enum { BAD, UGLY, GOOD }`. -/
inductive score_t where
  | BAD
  | UGLY
  | GOOD
  deriving DecidableEq, Repr

/-- The cost estimate `opcnt`. -/
structure opcnt where
  add : Nat
  mul : Nat
  fma : Nat
  other : Nat
  deriving DecidableEq, Repr

/-- A child plan `plan_rdft` acting on a machine state of type `σ`: its
identity `id` among the live objects, its cost estimate and its `apply(I, O)`
as a state transformer. -/
structure plan_rdft (σ : Type) where
  id : Nat
  ops : opcnt
  apply : Int → Int → σ → σ

end FFT

/-! ## `rdft/rank-geq2.c` -/

namespace FFT.RankGeq2

open FFT

/-- The solver record `S`. -/
structure S where
  spltrnk : Int
  buddies : Nat → Int
  nbuddies : Nat

/-- The library functions consumed by the solver.
`pickdim which_dim buddies nbuddies sz oop dp` gives the return code of
`X(pickdim)` and the value it leaves in `*dp` (`dp` is the value before the
call). -/
structure Lib where
  pickdim : Int → (Nat → Int) → Nat → tensor → Int → Nat → Bool × Nat
  tensor_inplace_strides : tensor → Bool
  tensor_min_stride : tensor → Int
  tensor_max_index : tensor → Int

/-- `picksplit(ego, sz, rp)`: return code and final `*rp`.
The source asserts `sz.rnk > 1` on entry. -/
def picksplit (L : Lib) (ego : S) (sz : tensor) (rp : Nat) : Bool × Nat :=
  let d := L.pickdim ego.spltrnk ego.buddies ego.nbuddies sz 1 rp
  if d.1 = false then (false, d.2)
  else
    -- *rp += 1
    let r := uadd d.2 1
    if r ≥ sz.rnk then (false, r) else (true, r)

/-- `applicable(ego_, p_, rp)`: return code and final `*rp`. The conjunction
is evaluated left to right and stops at the first false operand. -/
def applicable (L : Lib) (ego : S) (p_ : problem) (rp : Nat) : Bool × Nat :=
  match p_ with
  | problem.rdft p =>
    if p.sz.rnk ≥ 2 then
      let s := picksplit L ego p.sz rp
      if s.1 = true then
        (decide (p.I ≠ p.O) || L.tensor_inplace_strides p.sz, s.2)
      else (false, s.2)
    else (false, rp)
  | problem.other => (false, rp)

/-- `score(ego_, p_, plnr)`. `dummy` is the indeterminate initial value of the
local `uint dummy`. -/
def score (L : Lib) (ego : S) (p_ : problem) (plnr : planner) (dummy : Nat) : score_t :=
  if (applicable L ego p_ dummy).1 = false then score_t.BAD
  else if plnr.no_rank_splits = true ∧ ego.spltrnk ≠ ego.buddies 0 then score_t.BAD
  else
    match p_ with
    | problem.rdft p =>
      if p.vecsz.rnk > 0 ∧ L.tensor_min_stride p.vecsz > L.tensor_max_index p.sz then
        score_t.UGLY
      else score_t.GOOD
    | problem.other => score_t.BAD  -- not reached: `applicable` rejects such problems

end FFT.RankGeq2

/-! ## `threads/hc2hc-dif.c` -/

namespace FFT.Hc2hcDifThr

open FFT

/-- The genus of a codelet: the capability predicate `okp` (already applied to
its first argument, the descriptor that owns the genus; the remaining
arguments are `rio, iio, ios, vs, m, dist`) and the vector width `vl`. -/
structure hc2hc_genus where
  okp : Int → Int → Int → Int → Nat → Int → Bool
  vl : Nat

/-- The codelet descriptor `hc2hc_desc`. The radix of a codelet is positive;
a division by `radix` is the division of natural numbers. -/
structure hc2hc_desc where
  radix : Nat
  tw : Nat
  genus : hc2hc_genus
  ops : opcnt

/-- The solver record `solver_hc2hc` (the field read here is `desc`). -/
structure solver_hc2hc where
  desc : hc2hc_desc

/-- A butterfly codelet `khc2hc`: `k(rio, iio, W, ios, m, dist)`. -/
abbrev khc2hc (σ : Type) := Int → Int → Int → Int → Nat → Int → σ → σ

/-- The plan record `plan_hc2hc`. -/
structure plan_hc2hc (σ : Type) where
  ops : opcnt
  k : khc2hc σ
  cld0 : plan_rdft σ
  cldm : plan_rdft σ
  cld : plan_rdft σ
  W : Int
  r : Nat
  m : Nat
  vl : Nat
  is : Int
  ios : Int
  slv : solver_hc2hc

/-- The threaded plan record `P`. -/
structure P (σ : Type) where
  super : plan_hc2hc σ
  nthr : Nat
  mloop : Nat
  sW : Int

/-- The per-sweep record `PD`. -/
structure PD (σ : Type) where
  ri : Int
  ii : Int
  k : khc2hc σ
  W : Int
  sW : Int
  ios : Int
  is : Int

/-- The slice record `spawn_data` handed to a worker. -/
structure spawn_data (σ : Type) where
  min : Nat
  max : Nat
  data : PD σ

/-- The library functions consumed by the threaded solver. -/
structure Lib (σ : Type) where
  rdft_hc2hc_applicable : solver_hc2hc → problem → Bool
  mkstride : Int → Int → Int
  ops_add : opcnt → opcnt → opcnt
  ops_mul : Nat → opcnt → opcnt
  twiddle_length : Nat → Nat → Int
  mkplan_rdft_hc2hc : solver_hc2hc → problem → planner → Option (plan_hc2hc σ)
  spawn_loop : Nat → Nat → (spawn_data σ → σ → σ) → PD σ → σ → σ

variable {σ : Type}

/-- `spawn_apply(d)`: one codelet call on the slice `[min, max)`. -/
def spawn_apply (d : spawn_data σ) : σ → σ :=
  let ego := d.data
  let is := ego.is
  ego.k (ego.ri + umul_int d.min is) (ego.ii - umul_int d.min is)
    (ego.W + umul_int d.min ego.sW) ego.ios (uadd (umul 2 (usub d.max d.min)) 1) is

/-- The record `d` that `apply` fills in before the parallel loop. -/
def sweep_data (ego : P σ) (I : Int) : PD σ :=
  { ri := I + ego.super.is
    ii := I + umul_int (usub (umul ego.super.r ego.super.m) 1) ego.super.is
    k := ego.super.k
    W := ego.super.W
    sW := ego.sW
    ios := ego.super.ios
    is := ego.super.is }

/-- `apply(ego_, I, O)`. -/
def apply (L : Lib σ) (ego : P σ) (I O : Int) (s : σ) : σ :=
  let s1 := ego.super.cld0.apply I I s
  let mid := I + umul_int (ego.super.m / 2) ego.super.is
  let s2 := ego.super.cldm.apply mid mid s1
  let s3 := L.spawn_loop ego.mloop ego.nthr spawn_apply (sweep_data ego I) s2
  ego.super.cld.apply I O s3

/-- `applicable(ego, p_, plnr)`. The cast of `p_` to `problem_rdft` is
taken after the base predicate has accepted the problem. -/
def applicable (L : Lib σ) (ego : solver_hc2hc) (p_ : problem) (plnr : planner) : Bool :=
  if plnr.nthr > 1 ∧ L.rdft_hc2hc_applicable ego p_ = true then
    match p_ with
    | problem.rdft p =>
      let e := ego.desc
      let d := p.sz.dims
      let m := (d 0).n / e.radix
      decide (p.vecsz.rnk = 0)
        && (decide (p.I = p.O) || plnr.destroy_input)
        && e.genus.okp (p.I + (d 0).is)
             (p.I + umul_int (usub (umul e.radix m) 1) (d 0).is)
             (to_int (to_int m * (d 0).is)) 0 m (d 0).is
    | problem.other => false
  else false

/-- `finish(ego)`. -/
def finish (L : Lib σ) (ego : plan_hc2hc σ) : plan_hc2hc σ :=
  let d := ego.slv.desc
  { ego with
    ios := L.mkstride (to_int ego.r) (to_int (umul_int ego.m ego.is))
    ops := L.ops_add
      (L.ops_add ego.cld.ops (L.ops_mul ego.vl (L.ops_add ego.cld0.ops ego.cldm.ops)))
      (L.ops_mul (umul ego.vl (usub ego.m 1 / 2) / d.genus.vl) d.ops) }

/-- `score(ego_, p_, plnr)`. -/
def score (L : Lib σ) (ego : solver_hc2hc) (p_ : problem) (plnr : planner) : score_t :=
  if applicable L ego p_ plnr = false then score_t.BAD
  else
    match p_ with
    | problem.rdft p =>
      let n := (p.sz.dims 0).n
      if n ≤ 16 ∨ n / ego.desc.radix ≤ 4 then score_t.UGLY else score_t.GOOD
    | problem.other => score_t.BAD  -- not reached: `applicable` rejects such problems

/-- `mkplan(ego, p, plnr)`. -/
def mkplan (L : Lib σ) (ego : solver_hc2hc) (p : problem) (plnr : planner) : Option (P σ) :=
  match L.mkplan_rdft_hc2hc ego p plnr with
  | none => none
  | some pln =>
    some
      { super := pln
        nthr := plnr.nthr
        mloop := (usub pln.m 1 / 2) / pln.slv.desc.genus.vl
        sW := L.twiddle_length pln.r pln.slv.desc.tw }

end FFT.Hc2hcDifThr

/-! ## Concrete configurations used in the examples -/

namespace FFT.RankGeq2

/-- A geometry of the given rank whose dimensions all have extent 8 and unit
strides. -/
def ex_tensor (rnk : Nat) : tensor :=
  { rnk := rnk, dims := fun _ => { n := 8, is := 1, os := 1 } }

/-- The registered buddy table `{ 0, 1, -2 }`. -/
def ex_buddies : Nat → Int := fun i => if i = 0 then 0 else if i = 1 then 1 else -2

/-- The solver registered for the split index 1. -/
def ex_S : S := { spltrnk := 1, buddies := ex_buddies, nbuddies := 3 }

/-- A library whose `pickdim` always succeeds with the dimension index 0. -/
def ex_Lib : Lib :=
  { pickdim := fun _ _ _ _ _ _ => (true, 0)
    tensor_inplace_strides := fun _ => true
    tensor_min_stride := fun _ => 1
    tensor_max_index := fun _ => 63 }

/-- An out-of-place two-dimensional problem of shape 8 x 8 without vector
dimensions. -/
def ex_problem : problem_rdft :=
  { sz := ex_tensor 2, vecsz := ex_tensor 0, I := 0, O := 1000, kind := 0 }

end FFT.RankGeq2

/-! ## Instrumented machine state -/

namespace FFT

/-- One observable step of an execution: a child plan `apply(I, O)`, a call of
the parallel loop with the record handed to it, or one butterfly iteration of
a codelet with its real, imaginary and twiddle pointers. -/
inductive call where
  | child (id : Nat) (I O : Int)
  | loop (loopmax nthr : Nat) (ri ii W sW ios is : Int)
  | butterfly (ri ii W : Int)
  deriving DecidableEq, Repr

/-- The zero cost estimate. -/
def ops_zero : opcnt := { add := 0, mul := 0, fma := 0, other := 0 }

/-- A child plan that records each of its `apply` calls. -/
def traced_child (id : Nat) : plan_rdft (List call) :=
  { id := id, ops := ops_zero, apply := fun I O s => s ++ [call.child id I O] }

/-- A child plan that leaves the record untouched. -/
def silent_child (id : Nat) : plan_rdft (List call) :=
  { id := id, ops := ops_zero, apply := fun _ _ s => s }

end FFT

namespace FFT.Hc2hcDifThr

/-- Modelled from the spec: the butterfly codelet, which is not part of the
two files. A call `k(ri, ii, W, ios, cnt, is)` performs `(cnt - 1) / 2`
iterations; iteration `t` uses the real pointer `ri + t * is`, the imaginary
pointer `ii - t * is` and the twiddle pointer `W + t * sW`. Each iteration is
recorded. -/
def k_model (sW : Int) : khc2hc (List call) :=
  fun ri ii W _ios cnt is s =>
    s ++ (List.range ((cnt - 1) / 2)).map
      (fun (t : Nat) =>
        call.butterfly (ri + (t : Int) * is) (ii - (t : Int) * is) (W + (t : Int) * sW))

/-- Modelled from the spec: the parallel-loop primitive `X(spawn_loop)`, which
is not part of the two files: it "partitions the range into contiguous
disjoint slices and executes a supplied function once per slice, returning
only after all slices complete". `slices loopmax nthr` is the partition the
primitive chooses; the slices are run one after the other. -/
def spawn_loop_model {σ : Type} (slices : Nat → Nat → List (Nat × Nat)) :
    Nat → Nat → (spawn_data σ → σ → σ) → PD σ → σ → σ :=
  fun loopmax nthr proc data s =>
    (slices loopmax nthr).foldl
      (fun acc sl => proc { min := sl.1, max := sl.2, data := data } acc) s

/-- A parallel loop that only records the call it receives. -/
def spawn_loop_traced :
    Nat → Nat → (spawn_data (List call) → List call → List call) → PD (List call) →
      List call → List call :=
  fun loopmax nthr _proc d s =>
    s ++ [call.loop loopmax nthr d.ri d.ii d.W d.sW d.ios d.is]

/-- A library for the examples: every base applicability test succeeds, the
stride descriptor is the stride itself, costs are zero. -/
def ex_Lib {σ : Type} (spawn : Nat → Nat → (spawn_data σ → σ → σ) → PD σ → σ → σ) :
    Lib σ :=
  { rdft_hc2hc_applicable := fun _ _ => true
    mkstride := fun _ s => s
    ops_add := fun _ _ => ops_zero
    ops_mul := fun _ _ => ops_zero
    twiddle_length := fun _ _ => 6
    mkplan_rdft_hc2hc := fun _ _ _ => none
    spawn_loop := spawn }

/-- A radix-4 codelet descriptor of vector width 1 whose capability predicate
accepts everything. -/
def ex_desc : hc2hc_desc :=
  { radix := 4, tw := 0, genus := { okp := fun _ _ _ _ _ _ => true, vl := 1 }, ops := ops_zero }

/-- The solver for `ex_desc`. -/
def ex_solver : solver_hc2hc := { desc := ex_desc }

/-- A one-dimensional problem of extent `n` with unit strides and no vector
dimension, on the buffers `I` and `O`. -/
def ex_problem (n : Nat) (I O : Int) : problem_rdft :=
  { sz := { rnk := 1, dims := fun _ => { n := n, is := 1, os := 1 } }
    vecsz := { rnk := 0, dims := fun _ => { n := 1, is := 0, os := 0 } }
    I := I, O := O, kind := 0 }

/-- A planner context with four workers. -/
def ex_planner (destroy_input : Bool) : planner :=
  { nthr := 4, no_rank_splits := false, destroy_input := destroy_input }


/-- A plan record over the instrumented state with the codelet `k_model sW`,
the given geometry and the given three child plans. -/
def model_plan (r m : Nat) (is ios W sW : Int) (vl : Nat)
    (c0 cm c : plan_rdft (List call)) : plan_hc2hc (List call) :=
  { ops := ops_zero
    k := k_model sW
    cld0 := c0
    cldm := cm
    cld := c
    W := W
    r := r
    m := m
    vl := 1
    is := is
    ios := ios
    slv :=
      { desc :=
          { radix := r, tw := 0, genus := { okp := fun _ _ _ _ _ _ => true, vl := vl },
            ops := ops_zero } } }

/-- The threaded plan record around `model_plan` with vector width 1. -/
def model_P (r m : Nat) (is ios W sW : Int) (mloop nthr : Nat)
    (c0 cm c : plan_rdft (List call)) : P (List call) :=
  { super := model_plan r m is ios W sW 1 c0 cm c
    nthr := nthr
    mloop := mloop
    sW := sW }

/-- The slices `[min, max)` form a partition of `[0, n)`: each is a
(possibly empty) interval inside `[0, n)` and every index below `n` lies in
exactly one of them. -/
def IsPartition (n : Nat) (slices : List (Nat × Nat)) : Prop :=
  (∀ sl ∈ slices, sl.1 ≤ sl.2 ∧ sl.2 ≤ n) ∧
  ∀ j, j < n → (slices.filter (fun sl => decide (sl.1 ≤ j ∧ j < sl.2))).length = 1

instance (n : Nat) (slices : List (Nat × Nat)) : Decidable (IsPartition n slices) := by
  unfold IsPartition
  infer_instance

/-- The butterfly iteration `j` of the whole sweep as the specification describes it:
real pointer `I + (1 + j) * is`, imaginary pointer `I + (r * m - 1 - j) * is`,
twiddle pointer `W + j * sW`. -/
def sweep_iteration (r m : Nat) (is sW I W : Int) (j : Nat) : call :=
  call.butterfly (I + (1 + (j : Int)) * is) (I + ((r : Int) * m - 1 - j) * is)
    (W + (j : Int) * sW)

/-- A partition of `[0, loopmax)` into equal blocks of `⌈loopmax / nthr⌉`
indices (the last one possibly shorter), used in the examples. -/
def block_slices (loopmax nthr : Nat) : List (Nat × Nat) :=
  let bs := (loopmax + nthr - 1) / nthr
  (List.range ((loopmax + bs - 1) / bs)).map
    (fun i => (i * bs, Nat.min (i * bs + bs) loopmax))

end FFT.Hc2hcDifThr

namespace FFT.RankGeq2

/-- The plan record `P`: its own identity and cost estimate, the two child
plans and the solver. -/
structure P (σ : Type) where
  id : Nat
  ops : opcnt
  cld1 : plan_rdft σ
  cld2 : plan_rdft σ
  solver : S

/-- `apply(ego_, I, O)`. -/
def apply {σ : Type} (ego : P σ) (I O : Int) (s : σ) : σ :=
  let s1 := ego.cld1.apply I O s
  ego.cld2.apply O O s1

end FFT.RankGeq2


namespace FFT

/-- The same step with every butterfly pointer reduced modulo `2 ^ 32`, the
address arithmetic of a machine with 32-bit pointers. -/
def call.wrap32 : call → call
  | call.butterfly ri ii W =>
    call.butterfly (ri % 4294967296) (ii % 4294967296) (W % 4294967296)
  | call.child id I O => call.child id I O
  | call.loop loopmax nthr ri ii W sW ios is => call.loop loopmax nthr ri ii W sW ios is

end FFT

namespace FFT.Hc2hcDifThr

/-- The butterfly iteration `t` of the worker call on a slice starting at
`min`, as `apply`, `spawn_apply` and the codelet compute its pointers:
`(I + is) + min * is + t * is`, `(I + (r*m - 1) * is) - min * is - t * is`,
`W + min * sW + t * sW`, the products with `min`, `r*m - 1` taken in `uint`. -/
def slice_iteration (r m : Nat) (is sW I W : Int) (min t : Nat) : call :=
  call.butterfly (I + is + umul_int min is + (t : Int) * is)
    (I + umul_int (usub (umul r m) 1) is - umul_int min is - (t : Int) * is)
    (W + umul_int min sW + (t : Int) * sW)


/-- Modelled from the spec: the shared hc2hc plan constructor
`X(mkplan_rdft_hc2hc)`, which is not part of the two files. The spec:
"Decomposes a one-dimensional transform of extent `n` using a chosen `radix`
dividing `n`, with `m = n / radix`". The constructor refuses what `applicable`
refuses; otherwise the plan has `r = radix`, `m = n / radix`, vector length 1,
the input stride of dimension 0, and is completed by `finish`. The codelet, the
three child plans and the twiddle table address are supplied by the caller. -/
def mkplan_rdft_hc2hc_model (L : Lib (List call)) (k : khc2hc (List call))
    (c0 cm c : plan_rdft (List call)) (W : Int) :
    solver_hc2hc → problem → planner → Option (plan_hc2hc (List call)) :=
  fun ego p_ plnr =>
    if applicable L ego p_ plnr = true then
      match p_ with
      | problem.rdft p =>
        some (finish L
          { ops := ops_zero, k := k, cld0 := c0, cldm := cm, cld := c, W := W,
            r := ego.desc.radix, m := (p.sz.dims 0).n / ego.desc.radix, vl := 1,
            is := (p.sz.dims 0).is, ios := 0, slv := ego })
      | problem.other => none
    else none

/-- The library of the end-to-end example: the parallel loop runs the slices
`slices loopmax nthr`, the codelet is `k_model sW`, the twiddle length is `sW`,
the child plans are silent and the plan constructor is
`mkplan_rdft_hc2hc_model`. -/
def model_Lib (slices : Nat → Nat → List (Nat × Nat)) (sW W : Int) : Lib (List call) :=
  { ex_Lib (spawn_loop_model slices) with
    twiddle_length := fun _ _ => sW
    mkplan_rdft_hc2hc :=
      mkplan_rdft_hc2hc_model (ex_Lib (spawn_loop_model slices)) (k_model sW)
        (silent_child 0) (silent_child 1) (silent_child 2) W }

/-- A one-dimensional problem of extent `n` and stride `is` without vector
dimension, on the buffers `I` and `O`. -/
def strided_problem (n : Nat) (is I O : Int) : problem_rdft :=
  { sz := { rnk := 1, dims := fun _ => { n := n, is := is, os := is } }
    vecsz := { rnk := 0, dims := fun _ => { n := 1, is := 0, os := 0 } }
    I := I, O := O, kind := 0 }


/-- Modelled from the spec: the elements that a radix-`r` butterfly codelet,
which is not part of the two files, addresses. A call
`k(ri, ii, W, ios, cnt, is)` performs `(cnt - 1) / 2` iterations; iteration `t`
addresses, for each row `q = 0 .. r-1`, the real-side element
`ri + t * is + q * ios` and the imaginary-side element `ii - t * is - q * ios`.
Each addressed element is recorded. -/
def k_touch (r : Nat) : khc2hc (List Int) :=
  fun ri ii _W ios cnt is s =>
    s ++ (List.range ((cnt - 1) / 2)).flatMap
      (fun (t : Nat) =>
        (List.range r).flatMap
          (fun (q : Nat) => [ri + (t : Int) * is + (q : Int) * ios,
            ii - (t : Int) * is - (q : Int) * ios]))

/-- A child plan on the element record that addresses nothing. -/
def idle_child (id : Nat) : plan_rdft (List Int) :=
  { id := id, ops := ops_zero, apply := fun _ _ s => s }

/-- The threaded plan for radix `r`, `m`, stride `is`, with the codelet
`k_touch r`, idle children, and `ios` as set by `finish` (the stride
descriptor of `ex_Lib` is the stride itself). -/
def touch_P (r m : Nat) (is W sW : Int) (mloop nthr : Nat) : P (List Int) :=
  { super :=
      finish (ex_Lib (spawn_loop_model (fun _ _ => [])))
        { ops := ops_zero, k := k_touch r, cld0 := idle_child 0, cldm := idle_child 1,
          cld := idle_child 2, W := W, r := r, m := m, vl := 1, is := is, ios := 0,
          slv := ex_solver }
    nthr := nthr
    mloop := mloop
    sW := sW }

/-- The elements addressed by the worker that `apply` starts on the slice
`[a, b)`. -/
def worker_elements (r m : Nat) (is W sW I : Int) (mloop nthr : Nat) (a b : Nat) : List Int :=
  spawn_apply { min := a, max := b, data := sweep_data (touch_P r m is W sW mloop nthr) I } []

/-- The real-side element index of sweep iteration `j`, row `q`, in units of
`is`: `1 + j + q * m`. -/
def real_index (m j q : Nat) : Int := 1 + (j : Int) + (q : Int) * m

/-- The imaginary-side element index of sweep iteration `j`, row `q`, in units
of `is`: `r * m - 1 - j - q * m`. -/
def imag_index (r m j q : Nat) : Int := (r : Int) * m - 1 - j - (q : Int) * m

/-- The elements of sweep iteration `j` by their indices: for each row `q` the
real-side element `I + (1 + j + q*m) * is` and the imaginary-side element
`I + (r*m - 1 - j - q*m) * is`. -/
def iteration_elements (r m : Nat) (is I : Int) (j : Nat) : List Int :=
  (List.range r).flatMap
    (fun (q : Nat) => [I + real_index m j q * is, I + imag_index r m j q * is])

end FFT.Hc2hcDifThr


/-! ## Plan construction of `rdft/rank-geq2.c` over an explicit allocation state -/

namespace FFT.RankGeq2

/-- The classes of objects that the construction allocates. -/
inductive obj_kind where
  | tensor
  | problem
  | plan
  deriving DecidableEq, Repr

/-- The allocation state: the next fresh handle, every object created so far
(handle and class), every destroy call so far (in order), and every problem
handed to the planner so far (in order). -/
structure Heap where
  next : Nat
  created : List (Nat × obj_kind)
  destroyed : List Nat
  requested : List Nat

/-- The empty allocation state. -/
def Heap.empty : Heap := { next := 0, created := [], destroyed := [], requested := [] }

/-- Allocation of a fresh object: its handle and the new state. -/
def Heap.alloc (h : Heap) (k : obj_kind) : Nat × Heap :=
  (h.next, { h with next := h.next + 1, created := h.created ++ [(h.next, k)] })

/-- One destroy call on the handle `x`. -/
def Heap.destroy (h : Heap) (x : Nat) : Heap :=
  { h with destroyed := h.destroyed ++ [x] }

/-- The live objects: created and never destroyed. -/
def Heap.live (h : Heap) : List (Nat × obj_kind) :=
  h.created.filter (fun o => decide (o.1 ∉ h.destroyed))

/-- Handles in use are below the next fresh handle. -/
def Heap.wf (h : Heap) : Prop :=
  (∀ o ∈ h.created, o.1 < h.next) ∧ (∀ x ∈ h.destroyed, x < h.next)

/-- A child problem made by `X(mkproblem_rdft_d)`: its own handle, the handles
of the two geometries it was made from, the buffers and the kind address. -/
structure child_problem where
  id : Nat
  sz : Nat
  vecsz : Nat
  I : Int
  O : Int
  kind : Int

/-- Modelled from the spec: a geometry utility (`X(tensor_split)` per result,
`X(tensor_copy)`, `X(tensor_copy_inplace)`, `X(tensor_append)`,
`X(rdft_real_sz)`), none of which is part of the file: "derived geometries
(split, copy, copy-with-swapped-strides, append) are always newly allocated,
never aliased with the source". -/
def new_tensor (h : Heap) : Nat × Heap := h.alloc obj_kind.tensor

/-- Modelled from the spec: `X(tensor_destroy)`, not part of the file: one
destroy call on the geometry. -/
def tensor_destroy (x : Nat) (h : Heap) : Heap := h.destroy x

/-- Modelled from the spec: `X(mkproblem_rdft_d)`, not part of the file: the
problem constructor `make_rdft_problem(geometry, vector_geometry, input_buffer,
output_buffer, kind_per_dimension)` in its variant that consumes (destroys) the
two geometries it is given. -/
def mkproblem_rdft_d (sz vecsz : Nat) (I O kind : Int) (h : Heap) : child_problem × Heap :=
  let a := h.alloc obj_kind.problem
  ({ id := a.1, sz := sz, vecsz := vecsz, I := I, O := O, kind := kind },
    tensor_destroy sz (tensor_destroy vecsz a.2))

/-- Modelled from the spec: `X(problem_destroy)`, not part of the file:
"Problems ... are destroyed by the caller after use". -/
def problem_destroy (cldp : child_problem) (h : Heap) : Heap := h.destroy cldp.id

/-- Modelled from the spec: `X(plan_destroy)`, not part of the file: one
destroy call on the plan. -/
def plan_destroy {σ : Type} (pln : plan_rdft σ) (h : Heap) : Heap := h.destroy pln.id

/-- Modelled from the spec: `MKPLAN(plnr, cldp)`, the planner's recursive
"build_plan(sub_problem) -> Plan | null", not part of the file. The request is
recorded; `build` is the planner's answer for the child problem (null, or the
cost estimate and the `apply` of the plan it builds); a plan that is built is a
new live object. -/
def MKPLAN {σ : Type} (build : child_problem → Option (opcnt × (Int → Int → σ → σ)))
    (cldp : child_problem) (h : Heap) : Option (plan_rdft σ) × Heap :=
  let h1 := { h with requested := h.requested ++ [cldp.id] }
  match build cldp with
  | none => (none, h1)
  | some b =>
    let a := h1.alloc obj_kind.plan
    (some { id := a.1, ops := b.1, apply := b.2 }, a.2)

/-- The exit path `nada` of `mkplan`. -/
def nada {σ : Type} (cld1 cld2 : Option (plan_rdft σ))
    (rsz2i rsz1 sz2 sz1 vecszi sz2i : Nat) (h : Heap) : Heap :=
  let h1 := match cld2 with
    | some c => plan_destroy c h
    | none => h
  let h2 := match cld1 with
    | some c => plan_destroy c h1
    | none => h1
  tensor_destroy sz2i (tensor_destroy vecszi (tensor_destroy sz1 (tensor_destroy sz2
    (tensor_destroy rsz1 (tensor_destroy rsz2i h2)))))

/-- `mkplan(ego_, p_, plnr)` over the allocation state. `ops_add` is the cost
sum of the library, `build` the planner's answer to a child problem and
`spltrnk0` the indeterminate initial value of the local `uint spltrnk`. The
result is the plan (or null) and the final allocation state. -/
def mkplan {σ : Type} (L : Lib) (ops_add : opcnt → opcnt → opcnt)
    (build : child_problem → Option (opcnt × (Int → Int → σ → σ)))
    (ego : S) (p_ : problem) (spltrnk0 : Nat) (h0 : Heap) : Option (P σ) × Heap :=
  let a := applicable L ego p_ spltrnk0
  if a.1 = false then (none, h0)
  else
    match p_ with
    | problem.other => (none, h0)  -- not reached: `applicable` rejects such problems
    | problem.rdft p =>
      let spltrnk := a.2
      -- X(tensor_split)(p->sz, &sz1, spltrnk, &sz2);
      let sz1 := new_tensor h0
      let sz2 := new_tensor sz1.2
      -- vecszi = X(tensor_copy_inplace)(p->vecsz, INPLACE_OS);
      let vecszi := new_tensor sz2.2
      -- sz2i = X(tensor_copy_inplace)(sz2, INPLACE_OS);
      let sz2i := new_tensor vecszi.2
      -- rsz1 = X(rdft_real_sz)(p->kind, sz1);
      let rsz1 := new_tensor sz2i.2
      -- rsz2i = X(rdft_real_sz)(p->kind + spltrnk, sz2i);
      let rsz2i := new_tensor rsz1.2
      -- cldp = X(mkproblem_rdft_d)(X(tensor_copy)(sz2), X(tensor_append)(p->vecsz, rsz1),
      --                            p->I, p->O, p->kind + spltrnk);
      -- (the two argument geometries are allocated left to right)
      let t1 := new_tensor rsz2i.2
      let t2 := new_tensor t1.2
      let cldp1 := mkproblem_rdft_d t1.1 t2.1 p.I p.O (p.kind + spltrnk) t2.2
      -- cld1 = MKPLAN(plnr, cldp); X(problem_destroy)(cldp);
      let r1 := MKPLAN build cldp1.1 cldp1.2
      let h1 := problem_destroy cldp1.1 r1.2
      match r1.1 with
      | none => (none, nada (none : Option (plan_rdft σ)) none rsz2i.1 rsz1.1 sz2.1 sz1.1 vecszi.1 sz2i.1 h1)
      | some cld1 =>
        -- cldp = X(mkproblem_rdft_d)(X(tensor_copy_inplace)(sz1, INPLACE_OS),
        --                            X(tensor_append)(vecszi, rsz2i), p->O, p->O, p->kind);
        let t3 := new_tensor h1
        let t4 := new_tensor t3.2
        let cldp2 := mkproblem_rdft_d t3.1 t4.1 p.O p.O p.kind t4.2
        -- cld2 = MKPLAN(plnr, cldp); X(problem_destroy)(cldp);
        let r2 := MKPLAN build cldp2.1 cldp2.2
        let h2 := problem_destroy cldp2.1 r2.2
        match r2.1 with
        | none => (none, nada (some cld1) none rsz2i.1 rsz1.1 sz2.1 sz1.1 vecszi.1 sz2i.1 h2)
        | some cld2 =>
          -- pln = MKPLAN_RDFT(P, &padt, apply);
          let pln := h2.alloc obj_kind.plan
          let h3 := tensor_destroy sz2i.1 (tensor_destroy vecszi.1 (tensor_destroy sz1.1
            (tensor_destroy sz2.1 (tensor_destroy rsz1.1 (tensor_destroy rsz2i.1 pln.2)))))
          (some { id := pln.1, ops := ops_add cld1.ops cld2.ops, cld1 := cld1, cld2 := cld2,
                  solver := ego }, h3)

/-- `destroy(ego_)`: the second child first, then the first child, then the
plan itself. -/
def destroy {σ : Type} (ego : P σ) (h : Heap) : Heap :=
  (plan_destroy ego.cld1 (plan_destroy ego.cld2 h)).destroy ego.id

/-- The first child problem of an attempt that starts with the fresh handle
`n`: handle `n + 8`, made from the geometries `n + 6` and `n + 7`. -/
def child1 (p : problem_rdft) (spltrnk n : Nat) : child_problem :=
  { id := n + 8, sz := n + 6, vecsz := n + 7, I := p.I, O := p.O, kind := p.kind + spltrnk }

/-- The second child problem of such an attempt: handle `n + 12`, made from the
geometries `n + 10` and `n + 11`. -/
def child2 (p : problem_rdft) (n : Nat) : child_problem :=
  { id := n + 12, sz := n + 10, vecsz := n + 11, I := p.O, O := p.O, kind := p.kind }


/-- A planner that builds a silent plan for an out-of-place child problem and
returns null for an in-place one: on `ex_problem` the first child is built and
the second fails. -/
def ex_build : child_problem → Option (opcnt × (Int → Int → List call → List call)) :=
  fun c => if c.I = c.O then none else some (ops_zero, fun _ _ s => s)

end FFT.RankGeq2


namespace FFT.RankGeq2

/-- A library as `ex_Lib` whose minimal stride of a geometry is the input
stride of its dimension 0. -/
def ex_Lib_stride : Lib :=
  { ex_Lib with tensor_min_stride := fun t => (t.dims 0).is }

/-- The problem `ex_problem` repeated over a vector dimension of extent 4 and
stride `vs`. -/
def ex_vector_problem (vs : Int) : problem_rdft :=
  { ex_problem with vecsz := { rnk := 1, dims := fun _ => { n := 4, is := vs, os := vs } } }

end FFT.RankGeq2


/-! # Proofs -/

namespace FFT

theorem uadd_one_of_lt {a b : Nat} (h : a < b) (hb : b < UINT_MOD) : uadd a 1 = a + 1 := by
  unfold uadd UINT_MOD at *
  omega

theorem umul_eq_of_lt {a b : Nat} (h : a * b < UINT_MOD) : umul a b = a * b := by
  unfold umul
  exact Nat.mod_eq_of_lt h

theorem usub_eq_of_le {a b : Nat} (hb : b ≤ a) (ha : a < UINT_MOD) : usub a b = a - b := by
  unfold usub UINT_MOD at *
  omega

theorem uadd_eq_of_lt {a b : Nat} (h : a + b < UINT_MOD) : uadd a b = a + b := by
  unfold uadd
  exact Nat.mod_eq_of_lt h

theorem to_uint_cast (x : Int) : ((to_uint x : Nat) : Int) = x % 4294967296 := by
  unfold to_uint
  exact Int.toNat_of_nonneg (Int.emod_nonneg _ (by norm_num))

/-- In the range where the product does not wrap, the `uint` product of an
`uint` and an `int` is the mathematical product. -/
theorem umul_int_cast (u : Nat) (i : Int) (h0 : 0 ≤ (u : Int) * i)
    (h1 : (u : Int) * i < 4294967296) : ((umul_int u i : Nat) : Int) = (u : Int) * i := by
  unfold umul_int umul UINT_MOD
  rw [Int.natCast_mod, Int.natCast_mul, to_uint_cast]
  have : ((u : Int) * (i % 4294967296)) % ((4294967296 : Nat) : Int) = ((u : Int) * i) % 4294967296 := by
    norm_num [Int.mul_emod]
  rw [this]
  exact Int.emod_eq_of_lt h0 h1

theorem to_int_of_small (x : Int) (h0 : -2147483648 ≤ x) (h1 : x < 2147483648) :
    to_int x = x := by
  unfold to_int
  omega

/-- In the range where nothing wraps, the `uint` offset `(r * m - 1) * is` is
the mathematical product. -/
theorem imag_base_exact (r m : Nat) (is : Int) (h1 : 1 ≤ r * m) (hrm : r * m < UINT_MOD)
    (his : 0 ≤ is) (hii : ((r : Int) * m - 1) * is < 4294967296) :
    ((umul_int (usub (umul r m) 1) is : Nat) : Int) = ((r : Int) * m - 1) * is := by
  have hsub : usub (umul r m) 1 = r * m - 1 := by
    rw [umul_eq_of_lt hrm, usub_eq_of_le h1 hrm]
  have hcast : ((r * m - 1 : Nat) : Int) = (r : Int) * m - 1 := by
    rw [Nat.cast_sub h1]
    push_cast
    ring
  have hnn : 0 ≤ ((r : Int) * m - 1) * is := by
    apply mul_nonneg _ his
    have h2 : ((1 : Nat) : Int) ≤ ((r * m : Nat) : Int) := Int.ofNat_le.mpr h1
    push_cast at h2
    linarith
  rw [hsub]
  have h := umul_int_cast (r * m - 1) is (by rw [hcast]; exact hnn) (by rw [hcast]; exact hii)
  rw [h, hcast]

theorem umul_int_modEq (u : Nat) (i : Int) :
    ((umul_int u i : Nat) : Int) % 4294967296 = ((u : Int) * i) % 4294967296 := by
  unfold umul_int umul UINT_MOD
  rw [Int.natCast_mod, Int.natCast_mul, to_uint_cast]
  norm_num [Int.mul_emod]

theorem usub_umul_one_modEq (r m : Nat) :
    ((usub (umul r m) 1 : Nat) : Int) % 4294967296 = ((r : Int) * m - 1) % 4294967296 := by
  unfold usub umul UINT_MOD
  have h : ((r * m % 4294967296 + (4294967296 - 1 % 4294967296)) % 4294967296 : Nat)
      = (r * m + 4294967295) % 4294967296 := by
    omega
  rw [h]
  push_cast
  omega

end FFT

namespace FFT.RankGeq2

/-- C1: for a geometry of rank at least 2 (a `uint`), when `pickdim` on success
leaves a dimension index below the rank, `picksplit` either returns 0 or
returns 1 with the split rank `r = index + 1`, `1 ≤ r < rnk`; an index equal to
`rnk - 1` is always reported as no valid split. -/
theorem picksplit_split_rank (L : Lib) (ego : S) (sz : tensor) (rp : Nat)
    (hrank : 2 ≤ sz.rnk) (hu : sz.rnk < UINT_MOD)
    (hpick : (L.pickdim ego.spltrnk ego.buddies ego.nbuddies sz 1 rp).1 = true →
      (L.pickdim ego.spltrnk ego.buddies ego.nbuddies sz 1 rp).2 < sz.rnk) :
    ((picksplit L ego sz rp).1 = false ∨
      ((picksplit L ego sz rp).1 = true ∧
        (L.pickdim ego.spltrnk ego.buddies ego.nbuddies sz 1 rp).1 = true ∧
        (picksplit L ego sz rp).2 =
          (L.pickdim ego.spltrnk ego.buddies ego.nbuddies sz 1 rp).2 + 1 ∧
        1 ≤ (picksplit L ego sz rp).2 ∧ (picksplit L ego sz rp).2 < sz.rnk)) ∧
    ((L.pickdim ego.spltrnk ego.buddies ego.nbuddies sz 1 rp).2 = sz.rnk - 1 →
      (picksplit L ego sz rp).1 = false) := by
  unfold picksplit
  generalize L.pickdim ego.spltrnk ego.buddies ego.nbuddies sz 1 rp = d at hpick ⊢
  obtain ⟨ok, i⟩ := d
  cases ok with
  | false => simp
  | true =>
    have hlt : i < sz.rnk := hpick rfl
    have hadd : uadd i 1 = i + 1 := uadd_one_of_lt hlt hu
    simp only [hadd]
    by_cases hge : i + 1 ≥ sz.rnk
    · simp [hge]
    · have hne : i ≠ sz.rnk - 1 := by omega
      simp [hge, hne]
      omega

/-- C1, at a concrete input: rank 2 and `pickdim` choosing dimension 0. -/
theorem picksplit_split_rank_witness :
    (picksplit ex_Lib ex_S (ex_tensor 2) 7 = (true, 1)) ∧
    (((picksplit ex_Lib ex_S (ex_tensor 2) 7).1 = false ∨
      ((picksplit ex_Lib ex_S (ex_tensor 2) 7).1 = true ∧
        (ex_Lib.pickdim ex_S.spltrnk ex_S.buddies ex_S.nbuddies (ex_tensor 2) 1 7).1 = true ∧
        (picksplit ex_Lib ex_S (ex_tensor 2) 7).2 =
          (ex_Lib.pickdim ex_S.spltrnk ex_S.buddies ex_S.nbuddies (ex_tensor 2) 1 7).2 + 1 ∧
        1 ≤ (picksplit ex_Lib ex_S (ex_tensor 2) 7).2 ∧
        (picksplit ex_Lib ex_S (ex_tensor 2) 7).2 < (ex_tensor 2).rnk)) ∧
    ((ex_Lib.pickdim ex_S.spltrnk ex_S.buddies ex_S.nbuddies (ex_tensor 2) 1 7).2 =
        (ex_tensor 2).rnk - 1 →
      (picksplit ex_Lib ex_S (ex_tensor 2) 7).1 = false)) :=
  ⟨by decide,
   picksplit_split_rank ex_Lib ex_S (ex_tensor 2) 7 (by decide) (by decide) (by decide)⟩

/-- C7: the decision table of `score`. It returns BAD when `applicable` fails
(in particular for every geometry of rank 0 or 1) or when the planner's
no-rank-splits flag is set and `spltrnk` differs from `buddies[0]`, and only
then; otherwise it returns UGLY exactly when the vector rank is positive and
`tensor_min_stride(vecsz) > tensor_max_index(sz)`, and GOOD in the remaining
case. -/
theorem score_decision_table (L : Lib) (ego : S) (p_ : problem) (plnr : planner)
    (dummy : Nat) :
    (score L ego p_ plnr dummy = score_t.BAD ↔
      ((applicable L ego p_ dummy).1 = false ∨
        (plnr.no_rank_splits = true ∧ ego.spltrnk ≠ ego.buddies 0))) ∧
    (∀ p : problem_rdft, p_ = problem.rdft p → p.sz.rnk ≤ 1 →
      (applicable L ego p_ dummy).1 = false ∧ score L ego p_ plnr dummy = score_t.BAD) ∧
    (∀ p : problem_rdft, p_ = problem.rdft p →
      (score L ego p_ plnr dummy = score_t.UGLY ↔
        ((applicable L ego p_ dummy).1 = true ∧
          ¬ (plnr.no_rank_splits = true ∧ ego.spltrnk ≠ ego.buddies 0) ∧
          (p.vecsz.rnk > 0 ∧ L.tensor_min_stride p.vecsz > L.tensor_max_index p.sz))) ∧
      (score L ego p_ plnr dummy = score_t.GOOD ↔
        ((applicable L ego p_ dummy).1 = true ∧
          ¬ (plnr.no_rank_splits = true ∧ ego.spltrnk ≠ ego.buddies 0) ∧
          ¬ (p.vecsz.rnk > 0 ∧ L.tensor_min_stride p.vecsz > L.tensor_max_index p.sz)))) ∧
    (p_ = problem.other → score L ego p_ plnr dummy = score_t.BAD) := by
  refine ⟨?_, ?_, ?_, ?_⟩
  · unfold score
    cases p_ with
    | other => simp [applicable]
    | rdft p =>
      by_cases ha : (applicable L ego (problem.rdft p) dummy).1 = false
      · simp [ha]
      · by_cases hf : plnr.no_rank_splits = true ∧ ego.spltrnk ≠ ego.buddies 0
        · simp [ha, hf]
        · by_cases hv : p.vecsz.rnk > 0 ∧
              L.tensor_min_stride p.vecsz > L.tensor_max_index p.sz
          · simp only [ha, hf, hv, if_false, if_true, or_self]
            simp
          · simp only [ha, hf, hv, if_false, or_self]
            simp
  · intro p hp hr
    subst hp
    have ha : (applicable L ego (problem.rdft p) dummy).1 = false := by
      unfold applicable
      have : ¬ p.sz.rnk ≥ 2 := by omega
      simp [this]
    exact ⟨ha, by unfold score; simp [ha]⟩
  · intro p hp
    subst hp
    unfold score
    by_cases ha : (applicable L ego (problem.rdft p) dummy).1 = false
    · simp [ha]
    · have ha2 : (applicable L ego (problem.rdft p) dummy).1 = true := by
        simpa using ha
      by_cases hf : plnr.no_rank_splits = true ∧ ego.spltrnk ≠ ego.buddies 0
      · simp [ha2, hf]
      · by_cases hv : p.vecsz.rnk > 0 ∧
            L.tensor_min_stride p.vecsz > L.tensor_max_index p.sz
        · simp only [ha, ha2, hf, hv, if_false, if_true]
          simp
        · simp only [ha, ha2, hf, hv, if_false]
          simp
  · intro hp
    subst hp
    unfold score
    simp [applicable]

end FFT.RankGeq2

namespace FFT.Hc2hcDifThr

/-- C2, as stated, fails: an applicable in-place problem of extent 16 with
radix 4 is scored UGLY, not BAD. -/
theorem score_small_counterexample :
    applicable (ex_Lib spawn_loop_traced) ex_solver (problem.rdft (ex_problem 16 0 0))
        (ex_planner false) = true ∧
      ((ex_problem 16 0 0).sz.dims 0).n ≤ 16 ∧
      ((ex_problem 16 0 0).sz.dims 0).n / ex_solver.desc.radix ≤ 4 ∧
      score (ex_Lib spawn_loop_traced) ex_solver (problem.rdft (ex_problem 16 0 0))
        (ex_planner false) = score_t.UGLY ∧
      score (ex_Lib spawn_loop_traced) ex_solver (problem.rdft (ex_problem 16 0 0))
        (ex_planner false) ≠ score_t.BAD := by
  decide

/-- C2, amended: for a problem whose extent `n = sz.dims[0].n` satisfies
`n ≤ 16` or `n / radix ≤ 4`, `score` returns UGLY (low quality) when
`applicable` holds and BAD (reject) when `applicable` fails. -/
theorem score_small_sizes {σ : Type} (L : Lib σ) (ego : solver_hc2hc) (p : problem_rdft)
    (plnr : planner)
    (hsmall : (p.sz.dims 0).n ≤ 16 ∨ (p.sz.dims 0).n / ego.desc.radix ≤ 4) :
    score L ego (problem.rdft p) plnr =
      if applicable L ego (problem.rdft p) plnr = true then score_t.UGLY else score_t.BAD := by
  unfold score
  by_cases ha : applicable L ego (problem.rdft p) plnr = true
  · simp [ha, hsmall]
  · simp [ha]

/-- C2, amended, at a concrete input: extent 16, radix 4, in place. -/
theorem score_small_sizes_witness :
    score (ex_Lib spawn_loop_traced) ex_solver (problem.rdft (ex_problem 16 0 0))
        (ex_planner false) =
      if applicable (ex_Lib spawn_loop_traced) ex_solver (problem.rdft (ex_problem 16 0 0))
          (ex_planner false) = true
      then score_t.UGLY else score_t.BAD :=
  score_small_sizes (ex_Lib spawn_loop_traced) ex_solver (ex_problem 16 0 0)
    (ex_planner false) (by decide)

/-- C3, as stated, fails in both directions: an out-of-place problem without
permission to destroy the input is rejected although every listed condition
holds, and an in-place problem without that permission is accepted although
it is neither out-of-place nor permitted to destroy the input. -/
theorem applicable_out_of_place_counterexample :
    (applicable (ex_Lib spawn_loop_traced) ex_solver (problem.rdft (ex_problem 64 0 1000))
        (ex_planner false) = false ∧
      (ex_planner false).nthr > 1 ∧
      (ex_Lib spawn_loop_traced).rdft_hc2hc_applicable ex_solver
        (problem.rdft (ex_problem 64 0 1000)) = true ∧
      (ex_problem 64 0 1000).vecsz.rnk = 0 ∧
      ((ex_problem 64 0 1000).I ≠ (ex_problem 64 0 1000).O ∨
        (ex_planner false).destroy_input = true) ∧
      ex_solver.desc.genus.okp (0 + 1) (0 + (4 * 16 - 1) * 1) (16 * 1) 0 16 1 = true) ∧
    (applicable (ex_Lib spawn_loop_traced) ex_solver (problem.rdft (ex_problem 64 0 0))
        (ex_planner false) = true ∧
      ¬ ((ex_problem 64 0 0).I ≠ (ex_problem 64 0 0).O ∨
        (ex_planner false).destroy_input = true)) := by
  decide

/-- C3, amended: `applicable` returns true exactly when the worker count
exceeds 1, the base hc2hc predicate accepts the problem, the vector rank is 0,
the problem is in place (`I == O`) or the planner permits destroying the
input, and `okp` accepts `I + is`, `I + (radix * m - 1) * is`, `(int)m * is`,
`0`, `m`, `is` with `m = n / radix` (the offsets computed in `uint` and `int`
arithmetic as the source does). A problem of another class is rejected. In
the range where nothing wraps the three offsets are the mathematical values
`I + is`, `I + (radix * m - 1) * is` and `m * is`. -/
theorem applicable_iff {σ : Type} (L : Lib σ) (ego : solver_hc2hc) (p : problem_rdft)
    (plnr : planner) :
    (applicable L ego (problem.rdft p) plnr = true ↔
      (plnr.nthr > 1 ∧
        L.rdft_hc2hc_applicable ego (problem.rdft p) = true ∧
        p.vecsz.rnk = 0 ∧
        (p.I = p.O ∨ plnr.destroy_input = true) ∧
        ego.desc.genus.okp (p.I + (p.sz.dims 0).is)
          (p.I + umul_int
            (usub (umul ego.desc.radix ((p.sz.dims 0).n / ego.desc.radix)) 1) (p.sz.dims 0).is)
          (to_int (to_int (((p.sz.dims 0).n / ego.desc.radix : Nat) : Int) * (p.sz.dims 0).is)) 0
          ((p.sz.dims 0).n / ego.desc.radix) (p.sz.dims 0).is = true)) ∧
    applicable L ego problem.other plnr = false ∧
    (1 ≤ ego.desc.radix * ((p.sz.dims 0).n / ego.desc.radix) →
      ego.desc.radix * ((p.sz.dims 0).n / ego.desc.radix) < 2147483648 →
      0 ≤ (p.sz.dims 0).is →
      ((ego.desc.radix : Int) * (((p.sz.dims 0).n / ego.desc.radix : Nat) : Int))
        * (p.sz.dims 0).is < 2147483648 →
      (applicable L ego (problem.rdft p) plnr = true ↔
        (plnr.nthr > 1 ∧
          L.rdft_hc2hc_applicable ego (problem.rdft p) = true ∧
          p.vecsz.rnk = 0 ∧
          (p.I = p.O ∨ plnr.destroy_input = true) ∧
          ego.desc.genus.okp (p.I + (p.sz.dims 0).is)
            (p.I + ((ego.desc.radix : Int) * (((p.sz.dims 0).n / ego.desc.radix : Nat) : Int)
              - 1) * (p.sz.dims 0).is)
            ((((p.sz.dims 0).n / ego.desc.radix : Nat) : Int) * (p.sz.dims 0).is) 0
            ((p.sz.dims 0).n / ego.desc.radix) (p.sz.dims 0).is = true))) := by
  have hmain : applicable L ego (problem.rdft p) plnr = true ↔
      (plnr.nthr > 1 ∧
        L.rdft_hc2hc_applicable ego (problem.rdft p) = true ∧
        p.vecsz.rnk = 0 ∧
        (p.I = p.O ∨ plnr.destroy_input = true) ∧
        ego.desc.genus.okp (p.I + (p.sz.dims 0).is)
          (p.I + umul_int
            (usub (umul ego.desc.radix ((p.sz.dims 0).n / ego.desc.radix)) 1) (p.sz.dims 0).is)
          (to_int (to_int (((p.sz.dims 0).n / ego.desc.radix : Nat) : Int) * (p.sz.dims 0).is)) 0
          ((p.sz.dims 0).n / ego.desc.radix) (p.sz.dims 0).is = true) := by
    unfold applicable
    by_cases h1 : plnr.nthr > 1 ∧ L.rdft_hc2hc_applicable ego (problem.rdft p) = true
    · simp only [h1, and_self, if_true, true_and]
      simp [Bool.and_eq_true, and_assoc]
    · simp only [h1, if_false]
      constructor
      · intro h
        cases h
      · intro h
        exact absurd ⟨h.1, h.2.1⟩ h1
  refine ⟨hmain, ?_, ?_⟩
  · unfold applicable
    split <;> rfl
  · intro h1 hrm his hbig
    generalize hm : (p.sz.dims 0).n / ego.desc.radix = m at *
    generalize hr : ego.desc.radix = r at *
    generalize hs : (p.sz.dims 0).is = st at *
    have hM : UINT_MOD = 4294967296 := rfl
    have hr1 : 1 ≤ r := Nat.pos_of_mul_pos_right (by omega : 0 < r * m)
    have hmrm : m ≤ r * m := Nat.le_mul_of_pos_left m hr1
    have hmr : (m : Int) ≤ (r : Int) * m := by exact_mod_cast hmrm
    have hm_st : (m : Int) * st ≤ (r : Int) * m * st := mul_le_mul_of_nonneg_right hmr his
    have hm_nn : 0 ≤ (m : Int) * st := mul_nonneg (Int.ofNat_nonneg m) his
    have e1 := imag_base_exact r m st h1 (by omega) his (by nlinarith)
    have e2 : to_int (m : Int) = m := to_int_of_small _ (by omega) (by omega)
    have e3 : to_int ((m : Int) * st) = (m : Int) * st :=
      to_int_of_small _ (by linarith) (by linarith)
    rw [hmain, e1, e2, e3]

end FFT.Hc2hcDifThr

namespace FFT.RankGeq2

/-- C5: `apply` of a composite plan on buffers `(I, O)` (also when `I = O`) is
`cld2.apply(O, O)` after `cld1.apply(I, O)`; with children that record their
calls, the record grows by exactly the two calls `cld1(I, O)`, `cld2(O, O)` in
this order. -/
theorem apply_two_children_in_order {σ : Type} (ego : P σ) (I O : Int) (s : σ) :
    apply ego I O s = ego.cld2.apply O O (ego.cld1.apply I O s) ∧
    (∀ (id c1 c2 : Nat) (ops : opcnt) (slv : S) (log : List call),
      apply { id := id, ops := ops, cld1 := traced_child c1, cld2 := traced_child c2,
              solver := slv } I O log
        = log ++ [call.child c1 I O, call.child c2 O O]) := by
  constructor
  · rfl
  · intro id c1 c2 ops slv log
    simp [apply, traced_child]

end FFT.RankGeq2

namespace FFT.Hc2hcDifThr

/-- C6: `apply` performs, in this order, `cld0.apply(I, I)`, then
`cldm.apply(I + is*(m/2), I + is*(m/2))`, then one call of the parallel loop
with `mloop`, `nthr`, `spawn_apply` and the record with `ri = I + is`,
`ii = I + (r*m - 1)*is`, then `cld.apply(I, O)` (offsets in `uint`
arithmetic as in the source). With children and a parallel loop that record
their calls the record grows by exactly these four calls; the first three do
not mention `O`. In the range where no offset wraps the offsets are the
mathematical values `(m/2) * is` and `(r*m - 1) * is`. -/
theorem apply_four_steps_in_order {σ : Type} (L : Lib σ) (ego : P σ) (I O : Int) (s : σ) :
    apply L ego I O s =
      ego.super.cld.apply I O
        (L.spawn_loop ego.mloop ego.nthr spawn_apply
          { ri := I + ego.super.is
            ii := I + umul_int (usub (umul ego.super.r ego.super.m) 1) ego.super.is
            k := ego.super.k
            W := ego.super.W
            sW := ego.sW
            ios := ego.super.ios
            is := ego.super.is }
          (ego.super.cldm.apply (I + umul_int (ego.super.m / 2) ego.super.is)
            (I + umul_int (ego.super.m / 2) ego.super.is)
            (ego.super.cld0.apply I I s))) ∧
    (∀ (r m mloop nthr : Nat) (is ios W sW : Int) (log : List call),
      apply (ex_Lib spawn_loop_traced)
          (model_P r m is ios W sW mloop nthr (traced_child 0) (traced_child 1)
            (traced_child 2)) I O log
        = log ++
          [call.child 0 I I,
           call.child 1 (I + umul_int (m / 2) is) (I + umul_int (m / 2) is),
           call.loop mloop nthr (I + is) (I + umul_int (usub (umul r m) 1) is) W sW ios is,
           call.child 2 I O]) ∧
    (∀ (r m mloop nthr : Nat) (is ios W sW : Int) (log : List call),
      1 ≤ r → 1 ≤ m → r * m < UINT_MOD → 0 ≤ is →
      ((r : Int) * m - 1) * is < 4294967296 →
      apply (ex_Lib spawn_loop_traced)
          (model_P r m is ios W sW mloop nthr (traced_child 0) (traced_child 1)
            (traced_child 2)) I O log
        = log ++
          [call.child 0 I I,
           call.child 1 (I + ((m / 2 : Nat) : Int) * is) (I + ((m / 2 : Nat) : Int) * is),
           call.loop mloop nthr (I + is) (I + ((r : Int) * m - 1) * is) W sW ios is,
           call.child 2 I O]) := by
  have htrace : ∀ (r m mloop nthr : Nat) (is ios W sW : Int) (log : List call),
      apply (ex_Lib spawn_loop_traced)
          (model_P r m is ios W sW mloop nthr (traced_child 0) (traced_child 1)
            (traced_child 2)) I O log
        = log ++
          [call.child 0 I I,
           call.child 1 (I + umul_int (m / 2) is) (I + umul_int (m / 2) is),
           call.loop mloop nthr (I + is) (I + umul_int (usub (umul r m) 1) is) W sW ios is,
           call.child 2 I O] := by
    intro r m mloop nthr is ios W sW log
    simp [apply, sweep_data, model_P, model_plan, ex_Lib, spawn_loop_traced, traced_child]
  refine ⟨rfl, htrace, ?_⟩
  intro r m mloop nthr is ios W sW log hr hm hrm his hii
  have hM : UINT_MOD = 4294967296 := rfl
  have hmrm : m ≤ r * m := Nat.le_mul_of_pos_left m hr
  have hhalf : ((m / 2 : Nat) : Int) ≤ (r : Int) * m - 1 := by
    have : m / 2 + 1 ≤ r * m := by omega
    have h2 : ((m / 2 + 1 : Nat) : Int) ≤ ((r * m : Nat) : Int) := Int.ofNat_le.mpr this
    simp only [Nat.cast_add, Nat.cast_mul, Nat.cast_one] at h2
    linarith
  have e1 := imag_base_exact r m is (by omega) hrm his hii
  have e2 : ((umul_int (m / 2) is : Nat) : Int) = ((m / 2 : Nat) : Int) * is :=
    umul_int_cast (m / 2) is (mul_nonneg (Int.ofNat_nonneg _) his)
      (lt_of_le_of_lt (mul_le_mul_of_nonneg_right hhalf his) hii)
  rw [htrace, e1, e2]

theorem foldl_append_flatMap {α β : Type} (f : List β → α → List β) (g : α → List β)
    (l : List α) (h : ∀ a ∈ l, ∀ acc, f acc a = acc ++ g a) (acc : List β) :
    l.foldl f acc = acc ++ l.flatMap g := by
  induction l generalizing acc with
  | nil => simp
  | cons a l ih =>
    have ha := h a (List.mem_cons_self a l)
    have hl : ∀ b ∈ l, ∀ acc, f acc b = acc ++ g b :=
      fun b hb => h b (List.mem_cons_of_mem a hb)
    simp [List.foldl_cons, ha, ih hl, List.flatMap_cons, List.append_assoc]

theorem count_range'_interval (j a n : Nat) :
    (List.range' a n).count j = if a ≤ j ∧ j < a + n then 1 else 0 := by
  by_cases h : a ≤ j ∧ j < a + n
  · rw [if_pos h]
    exact List.count_eq_one_of_mem (List.nodup_range' a n) (List.mem_range'_1.mpr h)
  · rw [if_neg h]
    exact List.count_eq_zero.mpr (fun hm => h (List.mem_range'_1.mp hm))

theorem count_flatMap_slices (j : Nat) (slices : List (Nat × Nat))
    (h : ∀ sl ∈ slices, sl.1 ≤ sl.2) :
    (slices.flatMap (fun sl => List.range' sl.1 (sl.2 - sl.1))).count j =
      (slices.filter (fun sl => decide (sl.1 ≤ j ∧ j < sl.2))).length := by
  induction slices with
  | nil => simp
  | cons sl l ih =>
    have hsl := h sl (List.mem_cons_self sl l)
    have hl : ∀ s ∈ l, s.1 ≤ s.2 := fun s hs => h s (List.mem_cons_of_mem sl hs)
    rw [List.flatMap_cons, List.count_append, ih hl, count_range'_interval, List.filter_cons]
    have heq : sl.1 + (sl.2 - sl.1) = sl.2 := by omega
    rw [heq]
    by_cases hc : sl.1 ≤ j ∧ j < sl.2
    · simp [hc]; omega
    · simp [hc]

/-- The indices covered by the slices of a partition of `[0, n)` are the
indices `0 .. n-1`, each exactly once. -/
theorem partition_perm_range (n : Nat) (slices : List (Nat × Nat))
    (h : IsPartition n slices) :
    (slices.flatMap (fun sl => List.range' sl.1 (sl.2 - sl.1))).Perm (List.range n) := by
  rw [List.perm_iff_count]
  intro j
  rw [count_flatMap_slices j slices (fun sl hs => (h.1 sl hs).1)]
  by_cases hj : j < n
  · rw [h.2 j hj]
    exact (List.count_eq_one_of_mem (List.nodup_range n) (List.mem_range.mpr hj)).symm
  · have h0 : (List.range n).count j = 0 :=
      List.count_eq_zero.mpr (fun hm => hj (List.mem_range.mp hm))
    rw [h0, List.length_eq_zero, List.filter_eq_nil_iff]
    intro sl hs
    have := h.1 sl hs
    simp
    omega

theorem flatMap_congr_mem {α β : Type} (f g : α → List β) (l : List α)
    (h : ∀ a ∈ l, f a = g a) : l.flatMap f = l.flatMap g := by
  induction l with
  | nil => rfl
  | cons a l ih =>
    rw [List.flatMap_cons, List.flatMap_cons, h a (List.mem_cons_self a l),
      ih (fun b hb => h b (List.mem_cons_of_mem a hb))]

/-- One worker call on the slice `[a, b)` with a codelet that behaves as
`k_model`: `spawn_apply` performs `b - a` butterfly iterations. -/
theorem spawn_apply_slice (r m : Nat) (is ios W sW I : Int) (mloop nthr : Nat)
    (c0 cm c : plan_rdft (List call))
    (a b : Nat) (hab : a ≤ b) (hb : b < 2147483648) (acc : List call) :
    spawn_apply
        { min := a, max := b,
          data := sweep_data (model_P r m is ios W sW mloop nthr c0 cm c) I } acc
      = acc ++ (List.range (b - a)).map (slice_iteration r m is sW I W a) := by
  have hM : UINT_MOD = 4294967296 := rfl
  have hcnt : (uadd (umul 2 (usub b a)) 1 - 1) / 2 = b - a := by
    rw [usub_eq_of_le hab (by omega), umul_eq_of_lt (by omega), uadd_eq_of_lt (by omega)]
    omega
  simp only [spawn_apply, sweep_data, model_P, model_plan, k_model, hcnt]
  rfl

/-- The record of the whole threaded `apply`, children silent, for any list of
slices inside `[0, mloop)`. -/
theorem apply_sweep_record (r m mloop nthr : Nat) (is ios W sW I O : Int)
    (slices : Nat → Nat → List (Nat × Nat)) (hmloop : mloop < 2147483648)
    (hsl : ∀ sl ∈ slices mloop nthr, sl.1 ≤ sl.2 ∧ sl.2 ≤ mloop) :
    apply (ex_Lib (spawn_loop_model slices))
        (model_P r m is ios W sW mloop nthr (silent_child 0) (silent_child 1)
          (silent_child 2)) I O []
      = (slices mloop nthr).flatMap
          (fun sl => (List.range (sl.2 - sl.1)).map (slice_iteration r m is sW I W sl.1)) := by
  have hfold := foldl_append_flatMap
    (fun acc (sl : Nat × Nat) =>
      spawn_apply
        { min := sl.1, max := sl.2,
          data := sweep_data (model_P r m is ios W sW mloop nthr (silent_child 0)
            (silent_child 1) (silent_child 2)) I } acc)
    (fun sl => (List.range (sl.2 - sl.1)).map (slice_iteration r m is sW I W sl.1))
    (slices mloop nthr)
    (fun sl hs acc =>
      spawn_apply_slice r m is ios W sW I mloop nthr _ _ _ sl.1 sl.2
        (hsl sl hs).1 (lt_of_le_of_lt (hsl sl hs).2 hmloop) acc)
    []
  rw [List.nil_append] at hfold
  rw [← hfold]
  rfl

/-- Modulo `2 ^ 32` the pointers of iteration `t` of a slice starting at `a`
are those of iteration `a + t` of the whole sweep. -/
theorem slice_iteration_wrap32 (r m : Nat) (is sW I W : Int) (a t : Nat) :
    (slice_iteration r m is sW I W a t).wrap32
      = (sweep_iteration r m is sW I W (a + t)).wrap32 := by
  have h1 := umul_int_modEq a is
  have h2 := umul_int_modEq a sW
  have h3 := umul_int_modEq (usub (umul r m) 1) is
  have h4 := usub_umul_one_modEq r m
  have h5 : ((usub (umul r m) 1 : Nat) : Int) * is % 4294967296
      = (((r : Int) * m - 1) * is) % 4294967296 := by
    rw [Int.mul_emod, h4, ← Int.mul_emod]
  simp only [slice_iteration, sweep_iteration, call.wrap32, call.butterfly.injEq]
  push_cast
  refine ⟨?_, ?_, ?_⟩
  · have e : I + (1 + ((a : Int) + t)) * is = I + is + (a : Int) * is + t * is := by ring
    rw [e]
    omega
  · have e : I + ((r : Int) * m - 1 - ((a : Int) + t)) * is
        = I + ((r : Int) * m - 1) * is - (a : Int) * is - t * is := by ring
    rw [e]
    omega
  · have e : W + ((a : Int) + t) * sW = W + (a : Int) * sW + t * sW := by ring
    rw [e]
    omega

theorem flatMap_slices_map {β : Type} (F : Nat → β) (G : Nat → Nat → β)
    (slices : List (Nat × Nat))
    (h : ∀ sl ∈ slices, ∀ t, t < sl.2 - sl.1 → G sl.1 t = F (sl.1 + t)) :
    slices.flatMap (fun sl => (List.range (sl.2 - sl.1)).map (G sl.1))
      = (slices.flatMap (fun sl => List.range' sl.1 (sl.2 - sl.1))).map F := by
  rw [List.map_flatMap]
  apply flatMap_congr_mem
  intro sl hs
  rw [List.range'_eq_map_range, List.map_map]
  apply List.map_congr_left
  intro t ht
  exact h sl hs t (List.mem_range.mp ht)

/-- In the range where no `uint` offset wraps, the pointers of iteration `t`
of a slice starting at `a` are those of iteration `a + t` of the whole
sweep. -/
theorem slice_iteration_exact (r m : Nat) (is sW I W : Int)
    (hr : 1 ≤ r) (hrm : r * m < UINT_MOD) (his : 0 ≤ is) (hsW : 0 ≤ sW)
    (hii : ((r : Int) * m - 1) * is < 4294967296)
    (hW : (((m - 1) / 2 : Nat) : Int) * sW < 4294967296)
    (a t : Nat) (ha : a < (m - 1) / 2) :
    slice_iteration r m is sW I W a t = sweep_iteration r m is sW I W (a + t) := by
  have hM : UINT_MOD = 4294967296 := rfl
  have hmrm : m ≤ r * m := Nat.le_mul_of_pos_left m hr
  have ha1 : (a : Int) ≤ (r : Int) * m - 1 := by
    have : a + 1 ≤ r * m := by omega
    have h2 : ((a + 1 : Nat) : Int) ≤ ((r * m : Nat) : Int) := Int.ofNat_le.mpr this
    push_cast at h2
    linarith
  have ha2 : (a : Int) ≤ (((m - 1) / 2 : Nat) : Int) := Int.ofNat_le.mpr (by omega)
  have ha_is : ((umul_int a is : Nat) : Int) = (a : Int) * is :=
    umul_int_cast a is (mul_nonneg (Int.ofNat_nonneg a) his)
      (lt_of_le_of_lt (mul_le_mul_of_nonneg_right ha1 his) hii)
  have ha_sW : ((umul_int a sW : Nat) : Int) = (a : Int) * sW :=
    umul_int_cast a sW (mul_nonneg (Int.ofNat_nonneg a) hsW)
      (lt_of_le_of_lt (mul_le_mul_of_nonneg_right ha2 hsW) hW)
  have hsub : usub (umul r m) 1 = r * m - 1 := by
    rw [umul_eq_of_lt hrm, usub_eq_of_le (by omega) hrm]
  have hcast : ((r * m - 1 : Nat) : Int) = (r : Int) * m - 1 := by
    have : 1 ≤ r * m := by omega
    rw [Nat.cast_sub this]
    push_cast
    ring
  have hrm_is : ((umul_int (usub (umul r m) 1) is : Nat) : Int)
      = ((r : Int) * m - 1) * is := by
    rw [hsub]
    have h := umul_int_cast (r * m - 1) is
      (by rw [hcast]; exact mul_nonneg (by linarith [Int.ofNat_nonneg a]) his)
      (by rw [hcast]; exact hii)
    rw [h, hcast]
  simp only [slice_iteration, sweep_iteration, ha_is, ha_sW, hrm_is, call.butterfly.injEq]
  push_cast
  refine ⟨by ring, by ring, by ring⟩

/-- For all strides, as 32-bit addresses (modulo `2 ^ 32`): for every
partition of `[0, (m - 1) / 2)` the per-slice calls of `spawn_apply` perform
the iterations `j = 0 .. mloop - 1`, each once, and a single call over the
whole range performs the same iterations. -/
theorem sweep_partition_mod32 (r m nthr : Nat) (is ios W sW I O : Int)
    (slices : Nat → Nat → List (Nat × Nat)) (hm32 : m < UINT_MOD)
    (hpart : IsPartition ((m - 1) / 2) (slices ((m - 1) / 2) nthr)) :
    ((apply (ex_Lib (spawn_loop_model slices))
        (model_P r m is ios W sW ((m - 1) / 2) nthr (silent_child 0) (silent_child 1)
          (silent_child 2)) I O []).map call.wrap32).Perm
      ((List.range ((m - 1) / 2)).map (fun j => (sweep_iteration r m is sW I W j).wrap32)) ∧
    (apply (ex_Lib (spawn_loop_model (fun n _ => [(0, n)])))
        (model_P r m is ios W sW ((m - 1) / 2) nthr (silent_child 0) (silent_child 1)
          (silent_child 2)) I O []).map call.wrap32
      = (List.range ((m - 1) / 2)).map
          (fun j => (sweep_iteration r m is sW I W j).wrap32) := by
  have hM : UINT_MOD = 4294967296 := rfl
  have hmloop : (m - 1) / 2 < 2147483648 := by omega
  have hone : ∀ sl ∈ (fun (n : Nat) (_ : Nat) => [((0 : Nat), n)]) ((m - 1) / 2) nthr,
      sl.1 ≤ sl.2 ∧ sl.2 ≤ (m - 1) / 2 := by
    intro sl hs
    simp at hs
    subst hs
    simp
  have hrec := apply_sweep_record r m ((m - 1) / 2) nthr is ios W sW I O slices hmloop hpart.1
  have hrec1 := apply_sweep_record r m ((m - 1) / 2) nthr is ios W sW I O
    (fun n _ => [(0, n)]) hmloop hone
  have hflat1 : ([((0 : Nat), (m - 1) / 2)] : List (Nat × Nat)).flatMap
      (fun sl => List.range' sl.1 (sl.2 - sl.1)) = List.range ((m - 1) / 2) := by
    simp [List.range_eq_range']
  refine ⟨?_, ?_⟩
  · rw [hrec, List.map_flatMap]
    simp only [List.map_map]
    rw [flatMap_slices_map (fun j => (sweep_iteration r m is sW I W j).wrap32)
      (fun a => call.wrap32 ∘ slice_iteration r m is sW I W a) _
      (fun sl _ t _ => slice_iteration_wrap32 r m is sW I W sl.1 t)]
    exact (partition_perm_range _ _ hpart).map _
  · rw [hrec1, List.map_flatMap]
    simp only [List.map_map]
    rw [flatMap_slices_map (fun j => (sweep_iteration r m is sW I W j).wrap32)
      (fun a => call.wrap32 ∘ slice_iteration r m is sW I W a) _
      (fun sl _ t _ => slice_iteration_wrap32 r m is sW I W sl.1 t), hflat1]

/-- The plan that `mkplan` builds in the end-to-end example `n = 64`,
`radix = 4`, `nthr = 4`, vector width 1: `m = 16` and `mloop = 7`. -/
theorem mkplan_example (slices : Nat → Nat → List (Nat × Nat)) (is sW W I O : Int) :
    mkplan (model_Lib slices sW W) ex_solver (problem.rdft (strided_problem 64 is I O))
        (ex_planner true)
      = some (model_P 4 16 is (to_int (umul_int 16 is)) W sW 7 4 (silent_child 0)
          (silent_child 1) (silent_child 2)) := by
  have happ : applicable (ex_Lib (spawn_loop_model slices) : Lib (List call)) ex_solver
      (problem.rdft (strided_problem 64 is I O)) (ex_planner true) = true := by
    simp [applicable, ex_Lib, ex_solver, ex_desc, ex_planner, strided_problem]
  simp only [mkplan, model_Lib, mkplan_rdft_hc2hc_model, happ, if_true]
  have h7 : usub 16 1 / 2 / 1 = 7 := by decide
  simp [finish, model_P, model_plan, ex_Lib, ex_solver, ex_desc, ex_planner, strided_problem,
    h7]

/-- C4, as stated, fails: for `n = 64`, `radix = 4`, `nthr = 4`, vector width
1, `mkplan` stores `m = 16` and `mloop = 7`; the sweep performs 7 butterfly
iterations, at the indices 1..7 (unit stride, `I = 0`), not 31 iterations at
the indices 1..31. -/
theorem sweep_extent_counterexample :
    (mkplan (model_Lib block_slices 6 5000) ex_solver
        (problem.rdft (strided_problem 64 1 0 1000)) (ex_planner true)).map
        (fun ego => (ego.super.m, ego.mloop, ego.nthr)) = some (16, 7, 4) ∧
    (mkplan (model_Lib block_slices 6 5000) ex_solver
        (problem.rdft (strided_problem 64 1 0 1000)) (ex_planner true)).map
        (fun ego => apply (model_Lib block_slices 6 5000) ego 0 1000 [])
      = some [call.butterfly 1 63 5000, call.butterfly 2 62 5006, call.butterfly 3 61 5012,
          call.butterfly 4 60 5018, call.butterfly 5 59 5024, call.butterfly 6 58 5030,
          call.butterfly 7 57 5036] ∧
    (mkplan (model_Lib block_slices 6 5000) ex_solver
        (problem.rdft (strided_problem 64 1 0 1000)) (ex_planner true)).map
        (fun ego => (apply (model_Lib block_slices 6 5000) ego 0 1000 []).length) ≠ some 31 := by
  decide

/-- C4, amended: for `n = 64`, `radix = 4` (so `m = 16`), `nthr = 4` and vector
width 1, `mkplan` stores `mloop = 7` and `nthr = 4`, `apply` hands them to the
parallel loop with the real base pointer `I + is`, and for every partition of
`[0, 7)` chosen by the parallel loop the sweep performs exactly the iterations
`j = 0 .. 6`, that is the indices 1..7, the first one at the real pointer
`I + 1 * is`. -/
theorem sweep_extent_example (slices : Nat → Nat → List (Nat × Nat)) (is sW W I O : Int)
    (his : 0 ≤ is) (his63 : 63 * is < 4294967296) (hsW : 0 ≤ sW)
    (hsW7 : 7 * sW < 4294967296) (hpart : IsPartition 7 (slices 7 4)) :
    ∃ ego : P (List call),
      mkplan (model_Lib slices sW W) ex_solver (problem.rdft (strided_problem 64 is I O))
          (ex_planner true) = some ego ∧
      ego.super.r = 4 ∧ ego.super.m = 64 / 4 ∧ ego.mloop = 7 ∧ ego.nthr = 4 ∧
      apply (ex_Lib spawn_loop_traced) ego I O []
        = [call.loop 7 4 (I + is) (I + umul_int (usub (umul 4 16) 1) is) W sW
            (to_int (umul_int 16 is)) is] ∧
      (apply (model_Lib slices sW W) ego I O []).Perm
        ((List.range 7).map (sweep_iteration 4 16 is sW I W)) ∧
      sweep_iteration 4 16 is sW I W 0 = call.butterfly (I + 1 * is) (I + 63 * is) W := by
  refine ⟨_, mkplan_example slices is sW W I O, rfl, rfl, rfl, rfl, ?_, ?_, ?_⟩
  · simp [apply, sweep_data, model_P, model_plan, ex_Lib, spawn_loop_traced, silent_child]
  · have hrec := apply_sweep_record 4 16 7 4 is (to_int (umul_int 16 is)) W sW I O slices
      (by decide) hpart.1
    have hsame : apply (model_Lib slices sW W)
        (model_P 4 16 is (to_int (umul_int 16 is)) W sW 7 4 (silent_child 0) (silent_child 1)
          (silent_child 2)) I O []
        = apply (ex_Lib (spawn_loop_model slices))
        (model_P 4 16 is (to_int (umul_int 16 is)) W sW 7 4 (silent_child 0) (silent_child 1)
          (silent_child 2)) I O [] := rfl
    rw [hsame, hrec, flatMap_slices_map (sweep_iteration 4 16 is sW I W)
      (slice_iteration 4 16 is sW I W) _ ?_]
    · exact (partition_perm_range _ _ hpart).map _
    · intro sl hs t ht
      have hb := hpart.1 sl hs
      exact slice_iteration_exact 4 16 is sW I W (by decide) (by decide) his hsW
        (by norm_num; linarith) (by norm_num; linarith) sl.1 t
        (by have : (16 - 1) / 2 = 7 := by decide
            omega)
  · simp [sweep_iteration]

/-- C4, amended, at a concrete input: unit stride, `I = 0`, four workers with
the slices `[0,2), [2,4), [4,6), [6,7)`. -/
theorem sweep_extent_example_witness :
    IsPartition 7 (block_slices 7 4) ∧
    ∃ ego : P (List call),
      mkplan (model_Lib block_slices 6 5000) ex_solver
          (problem.rdft (strided_problem 64 1 0 1000)) (ex_planner true) = some ego ∧
      ego.super.r = 4 ∧ ego.super.m = 64 / 4 ∧ ego.mloop = 7 ∧ ego.nthr = 4 ∧
      apply (ex_Lib spawn_loop_traced) ego 0 1000 []
        = [call.loop 7 4 (0 + 1) (0 + umul_int (usub (umul 4 16) 1) 1) 5000 6
            (to_int (umul_int 16 1)) 1] ∧
      (apply (model_Lib block_slices 6 5000) ego 0 1000 []).Perm
        ((List.range 7).map (sweep_iteration 4 16 1 6 0 5000)) ∧
      sweep_iteration 4 16 1 6 0 5000 0 = call.butterfly (0 + 1 * 1) (0 + 63 * 1) 5000 :=
  ⟨by decide,
   sweep_extent_example block_slices 1 6 5000 0 1000 (by decide) (by decide) (by decide)
     (by decide) (by decide)⟩

theorem real_index_emod (m j q : Nat) (hj : j < (m - 1) / 2) :
    real_index m j q % m = 1 + j := by
  unfold real_index
  rw [Int.add_mul_emod_self]
  exact Int.emod_eq_of_lt (by omega) (by omega)

theorem imag_index_emod (r m j q : Nat) (hj : j < (m - 1) / 2) :
    imag_index r m j q % m = (m : Int) - 1 - j := by
  unfold imag_index
  have e : (r : Int) * m - 1 - j - (q : Int) * m
      = ((m : Int) - 1 - j) + ((r : Int) - q - 1) * m := by ring
  rw [e, Int.add_mul_emod_self]
  exact Int.emod_eq_of_lt (by omega) (by omega)

theorem mem_iteration_elements (r m : Nat) (is I : Int) (j : Nat) (x : Int) :
    x ∈ iteration_elements r m is I j ↔
      ∃ q, q < r ∧ (x = I + real_index m j q * is ∨ x = I + imag_index r m j q * is) := by
  unfold iteration_elements
  simp only [List.mem_flatMap, List.mem_range, List.mem_cons, List.mem_singleton,
    List.not_mem_nil, or_false]

/-- In the range where no offset wraps, the worker started on the slice
`[a, b)` addresses the elements of the sweep iterations `a .. b-1`. -/
theorem worker_elements_eq (r m : Nat) (is W sW I : Int) (mloop nthr a b : Nat)
    (hr : 1 ≤ r) (hm : 1 ≤ m) (hrm : r * m < UINT_MOD) (his : 0 ≤ is)
    (hbig : (r : Int) * m * is < 2147483648) (hab : a ≤ b) (hb : b ≤ (m - 1) / 2) :
    worker_elements r m is W sW I mloop nthr a b
      = (List.range' a (b - a)).flatMap (iteration_elements r m is I) := by
  have hM : UINT_MOD = 4294967296 := rfl
  have hmrm : m ≤ r * m := Nat.le_mul_of_pos_left m hr
  have hcnt : (uadd (umul 2 (usub b a)) 1 - 1) / 2 = b - a := by
    rw [usub_eq_of_le hab (by omega), umul_eq_of_lt (by omega), uadd_eq_of_lt (by omega)]
    omega
  have hmr : (m : Int) ≤ (r : Int) * m := by exact_mod_cast hmrm
  have hm_is : (m : Int) * is ≤ (r : Int) * m * is := mul_le_mul_of_nonneg_right hmr his
  have ha_le : (a : Int) ≤ (m : Int) := by
    have : a ≤ m := by omega
    exact_mod_cast this
  have ha_is : ((umul_int a is : Nat) : Int) = (a : Int) * is :=
    umul_int_cast a is (mul_nonneg (Int.ofNat_nonneg a) his)
      (by have := mul_le_mul_of_nonneg_right ha_le his; linarith)
  have hios : to_int ((umul_int m is : Nat) : Int) = (m : Int) * is := by
    rw [umul_int_cast m is (mul_nonneg (Int.ofNat_nonneg m) his) (by linarith)]
    exact to_int_of_small _ (by have := mul_nonneg (Int.ofNat_nonneg m) his; linarith)
      (by linarith)
  have hsub : usub (umul r m) 1 = r * m - 1 := by
    rw [umul_eq_of_lt hrm, usub_eq_of_le (by omega) hrm]
  have hcast : ((r * m - 1 : Nat) : Int) = (r : Int) * m - 1 := by
    have : 1 ≤ r * m := by omega
    rw [Nat.cast_sub this]
    push_cast
    ring
  have hrm_is : ((umul_int (usub (umul r m) 1) is : Nat) : Int)
      = ((r : Int) * m - 1) * is := by
    rw [hsub]
    have hnn : 0 ≤ ((r : Int) * m - 1) * is := by
      apply mul_nonneg _ his
      have : b + 1 ≤ r * m := by omega
      have h2 : ((b + 1 : Nat) : Int) ≤ ((r * m : Nat) : Int) := Int.ofNat_le.mpr this
      push_cast at h2
      linarith [Int.ofNat_nonneg b]
    have h := umul_int_cast (r * m - 1) is (by rw [hcast]; exact hnn)
      (by rw [hcast]; nlinarith)
    rw [h, hcast]
  simp only [worker_elements, spawn_apply, sweep_data, touch_P, finish, k_touch, ex_Lib,
    hcnt, ha_is, hios, hrm_is, List.nil_append]
  rw [List.range'_eq_map_range, List.flatMap_map]
  apply flatMap_congr_mem
  intro t _
  unfold iteration_elements
  apply flatMap_congr_mem
  intro q _
  simp only [real_index, imag_index, Function.comp]
  push_cast
  have e1 : I + is + (a : Int) * is + (t : Int) * is + (q : Int) * ((m : Int) * is)
      = I + (1 + ((a : Int) + t) + (q : Int) * m) * is := by ring
  have e2 : I + ((r : Int) * m - 1) * is - (a : Int) * is - (t : Int) * is
        - (q : Int) * ((m : Int) * is)
      = I + ((r : Int) * m - 1 - ((a : Int) + t) - (q : Int) * m) * is := by ring
  rw [e1, e2]

theorem index_facts (r m j j' q q' : Nat) (hj : j < (m - 1) / 2) (hj' : j' < (m - 1) / 2) :
    (j ≠ j' → real_index m j q ≠ real_index m j' q' ∧
      imag_index r m j q ≠ imag_index r m j' q') ∧
    real_index m j q ≠ imag_index r m j' q' := by
  have h1 := real_index_emod m j q hj
  have h2 := real_index_emod m j' q' hj'
  have h3 := imag_index_emod r m j q hj
  have h4 := imag_index_emod r m j' q' hj'
  refine ⟨fun hne => ⟨fun h => ?_, fun h => ?_⟩, fun h => ?_⟩
  · rw [h] at h1
    omega
  · rw [h] at h3
    omega
  · rw [h] at h1
    omega

theorem residue_facts (r m j q : Nat) (hj : j < (m - 1) / 2) :
    real_index m j q % m ≠ 0 ∧ imag_index r m j q % m ≠ 0 ∧
    (m % 2 = 0 → real_index m j q % m ≠ ((m / 2 : Nat) : Int) ∧
      imag_index r m j q % m ≠ ((m / 2 : Nat) : Int)) := by
  have h1 := real_index_emod m j q hj
  have h3 := imag_index_emod r m j q hj
  refine ⟨by omega, by omega, fun he => ⟨by omega, by omega⟩⟩

/-- C10: with `ios = m * is` as set by `finish`, the worker on a slice
`[a, b)` addresses, for its iterations `j = a .. b-1` and rows `q = 0 .. r-1`,
the elements `I + (1 + j + q*m) * is` and `I + (r*m - 1 - j - q*m) * is` (when
no offset wraps). For `r ≥ 1`, `m ≥ 1` the element indices of two distinct
iterations of the sweep are disjoint, a real-side index never equals an
imaginary-side index, and no index is congruent modulo `m` to 0 or, for even
`m`, to `m/2`. Hence two workers on disjoint slices address disjoint elements
and none addresses a pre-stage element `I + (q*m) * is` or a mid-stage element
`I + (m/2 + q*m) * is`. -/
theorem sweep_elements_disjoint (r m : Nat) (hr : 1 ≤ r) (hm : 1 ≤ m) :
    (∀ (is W sW I : Int) (mloop nthr a b : Nat), r * m < UINT_MOD → 0 ≤ is →
      (r : Int) * m * is < 2147483648 → a ≤ b → b ≤ (m - 1) / 2 →
      worker_elements r m is W sW I mloop nthr a b
        = (List.range' a (b - a)).flatMap (iteration_elements r m is I)) ∧
    (∀ j j' q q' : Nat, j < (m - 1) / 2 → j' < (m - 1) / 2 →
      (j ≠ j' → real_index m j q ≠ real_index m j' q' ∧
        imag_index r m j q ≠ imag_index r m j' q') ∧
      real_index m j q ≠ imag_index r m j' q') ∧
    (∀ j q : Nat, j < (m - 1) / 2 →
      real_index m j q % m ≠ 0 ∧ imag_index r m j q % m ≠ 0 ∧
      (m % 2 = 0 → real_index m j q % m ≠ ((m / 2 : Nat) : Int) ∧
        imag_index r m j q % m ≠ ((m / 2 : Nat) : Int))) ∧
    (∀ (is W sW I : Int) (mloop nthr a b a' b' : Nat), r * m < UINT_MOD → 0 < is →
      (r : Int) * m * is < 2147483648 → a ≤ b → b ≤ a' → a' ≤ b' → b' ≤ (m - 1) / 2 →
      List.Disjoint (worker_elements r m is W sW I mloop nthr a b)
        (worker_elements r m is W sW I mloop nthr a' b') ∧
      ∀ x ∈ worker_elements r m is W sW I mloop nthr a b, ∀ q : Nat,
        x ≠ I + ((q : Int) * m) * is ∧
        (m % 2 = 0 → x ≠ I + (((m / 2 : Nat) : Int) + (q : Int) * m) * is)) := by
  refine ⟨?_, ?_, ?_, ?_⟩
  · intro is W sW I mloop nthr a b hrm his hbig hab hb
    exact worker_elements_eq r m is W sW I mloop nthr a b hr hm hrm his hbig hab hb
  · intro j j' q q' hj hj'
    exact index_facts r m j j' q q' hj hj'
  · intro j q hj
    exact residue_facts r m j q hj
  · intro is W sW I mloop nthr a b a' b' hrm his hbig hab hba ha'b' hb'
    have his0 : is ≠ 0 := ne_of_gt his
    have hcancel : ∀ u v : Int, I + u * is = I + v * is → u = v := by
      intro u v h
      have : u * is = v * is := by linarith
      exact mul_right_cancel₀ his0 this
    rw [worker_elements_eq r m is W sW I mloop nthr a b hr hm hrm (le_of_lt his) hbig hab
        (by omega),
      worker_elements_eq r m is W sW I mloop nthr a' b' hr hm hrm (le_of_lt his) hbig ha'b'
        hb']
    constructor
    · intro x hx hx'
      rw [List.mem_flatMap] at hx hx'
      obtain ⟨j, hjm, hxj⟩ := hx
      obtain ⟨j', hjm', hxj'⟩ := hx'
      rw [List.mem_range'_1] at hjm hjm'
      rw [mem_iteration_elements] at hxj hxj'
      obtain ⟨q, _, hq⟩ := hxj
      obtain ⟨q', _, hq'⟩ := hxj'
      have hj : j < (m - 1) / 2 := by omega
      have hj' : j' < (m - 1) / 2 := by omega
      have hne : j ≠ j' := by omega
      have f1 := index_facts r m j j' q q' hj hj'
      have f2 := index_facts r m j' j q' q hj' hj
      rcases hq with hq | hq <;> rcases hq' with hq' | hq'
      · exact (f1.1 hne).1 (hcancel _ _ (hq.symm.trans hq'))
      · exact f1.2 (hcancel _ _ (hq.symm.trans hq'))
      · exact f2.2 (hcancel _ _ (hq'.symm.trans hq))
      · exact (f1.1 hne).2 (hcancel _ _ (hq.symm.trans hq'))
    · intro x hx q0
      rw [List.mem_flatMap] at hx
      obtain ⟨j, hjm, hxj⟩ := hx
      rw [List.mem_range'_1] at hjm
      rw [mem_iteration_elements] at hxj
      obtain ⟨q, _, hq⟩ := hxj
      have hj : j < (m - 1) / 2 := by omega
      have hres := residue_facts r m j q hj
      have hpre : ((q0 : Int) * m) % m = 0 := Int.mul_emod_left _ _
      have hmid : (((m / 2 : Nat) : Int) + (q0 : Int) * m) % m = ((m / 2 : Nat) : Int) := by
        rw [Int.add_mul_emod_self]
        exact Int.emod_eq_of_lt (by omega) (by omega)
      constructor
      · intro hx0
        rcases hq with hq | hq
        · have := hcancel _ _ (hq.symm.trans hx0)
          rw [this] at hres
          exact hres.1 hpre
        · have := hcancel _ _ (hq.symm.trans hx0)
          rw [this] at hres
          exact hres.2.1 hpre
      · intro he hx0
        rcases hq with hq | hq
        · have := hcancel _ _ (hq.symm.trans hx0)
          rw [this] at hres
          exact (hres.2.2 he).1 hmid
        · have := hcancel _ _ (hq.symm.trans hx0)
          rw [this] at hres
          exact (hres.2.2 he).2 hmid

/-- C10 at a concrete input: `r = 4`, `m = 16`, unit stride, the workers on the
slices `[0, 2)` and `[2, 4)`. -/
theorem sweep_elements_disjoint_witness :
    worker_elements 4 16 1 5000 6 0 7 4 0 2
        = [1, 63, 17, 47, 33, 31, 49, 15, 2, 62, 18, 46, 34, 30, 50, 14] ∧
    List.Disjoint (worker_elements 4 16 1 5000 6 0 7 4 0 2)
      (worker_elements 4 16 1 5000 6 0 7 4 2 4) :=
  ⟨by decide,
   ((sweep_elements_disjoint 4 16 (by decide) (by decide)).2.2.2 1 5000 6 0 7 4 0 2 2 4
      (by decide) (by decide) (by decide) (by decide) (by decide) (by decide)
      (by decide)).1⟩

end FFT.Hc2hcDifThr

namespace FFT.RankGeq2

/-- The live objects after an attempt that started from a well-formed state:
the objects that were live before, and the objects of the attempt that it did
not destroy. -/
theorem live_of_attempt (h0 : Heap) (hwf : h0.wf) (n' : Nat) (new : List (Nat × obj_kind))
    (dnew req' : List Nat) (hnew : ∀ o ∈ new, h0.next ≤ o.1) (hd : ∀ x ∈ dnew, h0.next ≤ x) :
    Heap.live { next := n', created := h0.created ++ new,
                destroyed := h0.destroyed ++ dnew, requested := req' }
      = h0.live ++ new.filter (fun o => decide (o.1 ∉ dnew)) := by
  unfold Heap.live
  simp only [List.filter_append]
  congr 1
  · apply List.filter_congr
    intro o ho
    have h1 := hwf.1 o ho
    have h2 : o.1 ∉ dnew := fun hm => by have := hd _ hm; omega
    simp [h2]
  · apply List.filter_congr
    intro o ho
    have h1 := hnew o ho
    have h2 : o.1 ∉ h0.destroyed := fun hm => by have := hwf.2 _ hm; omega
    simp [h2]

/-- The final state when the planner returns null for the first child. -/
theorem mkplan_first_child_null {σ : Type} (L : Lib) (ops_add : opcnt → opcnt → opcnt)
    (build : child_problem → Option (opcnt × (Int → Int → σ → σ)))
    (ego : S) (p : problem_rdft) (spltrnk0 : Nat) (h0 : Heap)
    (happ : (applicable L ego (problem.rdft p) spltrnk0).1 = true)
    (hb1 : build (child1 p (applicable L ego (problem.rdft p) spltrnk0).2 h0.next) = none) :
    mkplan L ops_add build ego (problem.rdft p) spltrnk0 h0 =
      (none,
        { next := h0.next + 9
          created := h0.created ++
            [(h0.next, obj_kind.tensor), (h0.next + 1, obj_kind.tensor),
             (h0.next + 2, obj_kind.tensor), (h0.next + 3, obj_kind.tensor),
             (h0.next + 4, obj_kind.tensor), (h0.next + 5, obj_kind.tensor),
             (h0.next + 6, obj_kind.tensor), (h0.next + 7, obj_kind.tensor),
             (h0.next + 8, obj_kind.problem)]
          destroyed := h0.destroyed ++
            [h0.next + 7, h0.next + 6, h0.next + 8, h0.next + 5, h0.next + 4, h0.next + 1,
             h0.next, h0.next + 2, h0.next + 3]
          requested := h0.requested ++ [h0.next + 8] }) := by
  simp only [child1] at hb1
  simp [mkplan, happ, new_tensor, Heap.alloc, mkproblem_rdft_d, tensor_destroy, Heap.destroy,
    MKPLAN, problem_destroy, nada, Nat.add_assoc, hb1]

/-- The final state when the planner builds the first child and returns null
for the second. -/
theorem mkplan_second_child_null {σ : Type} (L : Lib) (ops_add : opcnt → opcnt → opcnt)
    (build : child_problem → Option (opcnt × (Int → Int → σ → σ)))
    (ego : S) (p : problem_rdft) (spltrnk0 : Nat) (h0 : Heap)
    (b1 : opcnt × (Int → Int → σ → σ))
    (happ : (applicable L ego (problem.rdft p) spltrnk0).1 = true)
    (hb1 : build (child1 p (applicable L ego (problem.rdft p) spltrnk0).2 h0.next) = some b1)
    (hb2 : build (child2 p h0.next) = none) :
    mkplan L ops_add build ego (problem.rdft p) spltrnk0 h0 =
      (none,
        { next := h0.next + 13
          created := h0.created ++
            [(h0.next, obj_kind.tensor), (h0.next + 1, obj_kind.tensor),
             (h0.next + 2, obj_kind.tensor), (h0.next + 3, obj_kind.tensor),
             (h0.next + 4, obj_kind.tensor), (h0.next + 5, obj_kind.tensor),
             (h0.next + 6, obj_kind.tensor), (h0.next + 7, obj_kind.tensor),
             (h0.next + 8, obj_kind.problem), (h0.next + 9, obj_kind.plan),
             (h0.next + 10, obj_kind.tensor), (h0.next + 11, obj_kind.tensor),
             (h0.next + 12, obj_kind.problem)]
          destroyed := h0.destroyed ++
            [h0.next + 7, h0.next + 6, h0.next + 8, h0.next + 11, h0.next + 10, h0.next + 12,
             h0.next + 9, h0.next + 5, h0.next + 4, h0.next + 1, h0.next, h0.next + 2,
             h0.next + 3]
          requested := h0.requested ++ [h0.next + 8, h0.next + 12] }) := by
  simp only [child1] at hb1
  simp only [child2] at hb2
  simp [mkplan, happ, new_tensor, Heap.alloc, mkproblem_rdft_d, tensor_destroy, Heap.destroy,
    MKPLAN, problem_destroy, plan_destroy, nada, Nat.add_assoc, hb1, hb2]

/-- The plan and the final state when the planner builds both children. -/
theorem mkplan_both_children {σ : Type} (L : Lib) (ops_add : opcnt → opcnt → opcnt)
    (build : child_problem → Option (opcnt × (Int → Int → σ → σ)))
    (ego : S) (p : problem_rdft) (spltrnk0 : Nat) (h0 : Heap)
    (b1 b2 : opcnt × (Int → Int → σ → σ))
    (happ : (applicable L ego (problem.rdft p) spltrnk0).1 = true)
    (hb1 : build (child1 p (applicable L ego (problem.rdft p) spltrnk0).2 h0.next) = some b1)
    (hb2 : build (child2 p h0.next) = some b2) :
    mkplan L ops_add build ego (problem.rdft p) spltrnk0 h0 =
      (some
        { id := h0.next + 14
          ops := ops_add b1.1 b2.1
          cld1 := { id := h0.next + 9, ops := b1.1, apply := b1.2 }
          cld2 := { id := h0.next + 13, ops := b2.1, apply := b2.2 }
          solver := ego },
        { next := h0.next + 15
          created := h0.created ++
            [(h0.next, obj_kind.tensor), (h0.next + 1, obj_kind.tensor),
             (h0.next + 2, obj_kind.tensor), (h0.next + 3, obj_kind.tensor),
             (h0.next + 4, obj_kind.tensor), (h0.next + 5, obj_kind.tensor),
             (h0.next + 6, obj_kind.tensor), (h0.next + 7, obj_kind.tensor),
             (h0.next + 8, obj_kind.problem), (h0.next + 9, obj_kind.plan),
             (h0.next + 10, obj_kind.tensor), (h0.next + 11, obj_kind.tensor),
             (h0.next + 12, obj_kind.problem), (h0.next + 13, obj_kind.plan),
             (h0.next + 14, obj_kind.plan)]
          destroyed := h0.destroyed ++
            [h0.next + 7, h0.next + 6, h0.next + 8, h0.next + 11, h0.next + 10, h0.next + 12,
             h0.next + 5, h0.next + 4, h0.next + 1, h0.next, h0.next + 2, h0.next + 3]
          requested := h0.requested ++ [h0.next + 8, h0.next + 12] }) := by
  simp only [child1] at hb1
  simp only [child2] at hb2
  simp [mkplan, happ, new_tensor, Heap.alloc, mkproblem_rdft_d, tensor_destroy, Heap.destroy,
    MKPLAN, problem_destroy, plan_destroy, nada, Nat.add_assoc, hb1, hb2]

theorem count_fresh (d0 dnew : List Nat) (n x : Nat) (hd : ∀ y ∈ d0, y < n) (hx : n ≤ x) :
    (d0 ++ dnew).count x = dnew.count x := by
  rw [List.count_append]
  have : d0.count x = 0 := List.count_eq_zero.mpr (fun hm => by have := hd _ hm; omega)
  omega

set_option maxHeartbeats 4000000 in
/-- C8: for an applicable problem and a well-formed allocation state, with
`n` the first fresh handle: (1) if the planner returns null for child 1,
`mkplan` returns null, child 2 is never requested, the live objects are those
from before the attempt and every object the attempt created (the six
temporary geometries `n .. n+5`, the two geometries consumed by the child
problem and the child problem) is destroyed exactly once; (2) if the planner
builds child 1 (the plan `n+9`) and returns null for child 2, `mkplan` returns
null, the live objects are those from before and every object the attempt
created, child plan 1 included, is destroyed exactly once; (3) if both
children are built, `mkplan` returns a plan that owns them, the objects that
stay live are the two child plans and the returned plan, never destroyed, and
every other object the attempt created is destroyed exactly once. -/
theorem mkplan_construction_atomic {σ : Type} (L : Lib) (ops_add : opcnt → opcnt → opcnt)
    (build : child_problem → Option (opcnt × (Int → Int → σ → σ)))
    (ego : S) (p : problem_rdft) (spltrnk0 : Nat) (h0 : Heap)
    (happ : (applicable L ego (problem.rdft p) spltrnk0).1 = true) (hwf : h0.wf) :
    (build (child1 p (applicable L ego (problem.rdft p) spltrnk0).2 h0.next) = none →
      (mkplan L ops_add build ego (problem.rdft p) spltrnk0 h0).1.isNone = true ∧
      (mkplan L ops_add build ego (problem.rdft p) spltrnk0 h0).2.requested
        = h0.requested ++ [h0.next + 8] ∧
      (mkplan L ops_add build ego (problem.rdft p) spltrnk0 h0).2.next = h0.next + 9 ∧
      (mkplan L ops_add build ego (problem.rdft p) spltrnk0 h0).2.live = h0.live ∧
      (∀ x, h0.next ≤ x → x < h0.next + 9 →
        (mkplan L ops_add build ego (problem.rdft p) spltrnk0 h0).2.destroyed.count x = 1)) ∧
    (∀ b1, build (child1 p (applicable L ego (problem.rdft p) spltrnk0).2 h0.next) = some b1 →
      build (child2 p h0.next) = none →
      (mkplan L ops_add build ego (problem.rdft p) spltrnk0 h0).1.isNone = true ∧
      (mkplan L ops_add build ego (problem.rdft p) spltrnk0 h0).2.requested
        = h0.requested ++ [h0.next + 8, h0.next + 12] ∧
      (mkplan L ops_add build ego (problem.rdft p) spltrnk0 h0).2.next = h0.next + 13 ∧
      (h0.next + 9, obj_kind.plan) ∈
        (mkplan L ops_add build ego (problem.rdft p) spltrnk0 h0).2.created ∧
      (mkplan L ops_add build ego (problem.rdft p) spltrnk0 h0).2.live = h0.live ∧
      (∀ x, h0.next ≤ x → x < h0.next + 13 →
        (mkplan L ops_add build ego (problem.rdft p) spltrnk0 h0).2.destroyed.count x = 1)) ∧
    (∀ b1 b2,
      build (child1 p (applicable L ego (problem.rdft p) spltrnk0).2 h0.next) = some b1 →
      build (child2 p h0.next) = some b2 →
      (mkplan L ops_add build ego (problem.rdft p) spltrnk0 h0).1.map
          (fun pln => (pln.id, pln.cld1.id, pln.cld2.id, pln.ops))
        = some (h0.next + 14, h0.next + 9, h0.next + 13, ops_add b1.1 b2.1) ∧
      (mkplan L ops_add build ego (problem.rdft p) spltrnk0 h0).2.requested
        = h0.requested ++ [h0.next + 8, h0.next + 12] ∧
      (mkplan L ops_add build ego (problem.rdft p) spltrnk0 h0).2.next = h0.next + 15 ∧
      (mkplan L ops_add build ego (problem.rdft p) spltrnk0 h0).2.live
        = h0.live ++ [(h0.next + 9, obj_kind.plan), (h0.next + 13, obj_kind.plan),
            (h0.next + 14, obj_kind.plan)] ∧
      (∀ x, h0.next ≤ x → x < h0.next + 15 →
        (mkplan L ops_add build ego (problem.rdft p) spltrnk0 h0).2.destroyed.count x
          = if x = h0.next + 9 ∨ x = h0.next + 13 ∨ x = h0.next + 14 then 0 else 1)) := by
  refine ⟨?_, ?_, ?_⟩
  · intro hb1
    rw [mkplan_first_child_null L ops_add build ego p spltrnk0 h0 happ hb1]
    refine ⟨rfl, rfl, rfl, ?_, ?_⟩
    · rw [live_of_attempt h0 hwf _ _ _ _ (by simp) (by simp)]
      simp
    · intro x hx1 hx2
      simp only []
      rw [count_fresh _ _ h0.next x hwf.2 hx1]
      obtain ⟨k, rfl⟩ := Nat.exists_eq_add_of_le hx1
      have hk : k < 9 := by omega
      interval_cases k <;> simp [List.count_cons]
  · intro b1 hb1 hb2
    rw [mkplan_second_child_null L ops_add build ego p spltrnk0 h0 b1 happ hb1 hb2]
    refine ⟨rfl, rfl, rfl, by simp, ?_, ?_⟩
    · rw [live_of_attempt h0 hwf _ _ _ _ (by simp) (by simp)]
      simp
    · intro x hx1 hx2
      simp only []
      rw [count_fresh _ _ h0.next x hwf.2 hx1]
      obtain ⟨k, rfl⟩ := Nat.exists_eq_add_of_le hx1
      have hk : k < 13 := by omega
      interval_cases k <;> simp [List.count_cons]
  · intro b1 b2 hb1 hb2
    rw [mkplan_both_children L ops_add build ego p spltrnk0 h0 b1 b2 happ hb1 hb2]
    refine ⟨rfl, rfl, rfl, ?_, ?_⟩
    · rw [live_of_attempt h0 hwf _ _ _ _ (by simp) (by simp)]
      simp
    · intro x hx1 hx2
      simp only []
      rw [count_fresh _ _ h0.next x hwf.2 hx1]
      obtain ⟨k, rfl⟩ := Nat.exists_eq_add_of_le hx1
      have hk : k < 15 := by omega
      interval_cases k <;> simp [List.count_cons]

/-- C8 at a concrete input: the 8 x 8 out-of-place problem from the empty
allocation state, with a planner that builds child 1 and returns null for
child 2. -/
theorem mkplan_construction_atomic_witness :
    (applicable ex_Lib ex_S (problem.rdft ex_problem) 0).1 = true ∧
    (mkplan ex_Lib (fun _ _ => ops_zero) ex_build ex_S (problem.rdft ex_problem) 0
        Heap.empty).1.isNone = true ∧
    (mkplan ex_Lib (fun _ _ => ops_zero) ex_build ex_S (problem.rdft ex_problem) 0
        Heap.empty).2.requested = Heap.empty.requested ++ [Heap.empty.next + 8,
          Heap.empty.next + 12] ∧
    (mkplan ex_Lib (fun _ _ => ops_zero) ex_build ex_S (problem.rdft ex_problem) 0
        Heap.empty).2.live = Heap.empty.live :=
  ⟨by decide,
   ((mkplan_construction_atomic ex_Lib (fun _ _ => ops_zero) ex_build ex_S ex_problem 0
      Heap.empty (by decide) (by simp [Heap.wf, Heap.empty])).2.1
      (ops_zero, fun _ _ s => s) rfl rfl).1,
   ((mkplan_construction_atomic ex_Lib (fun _ _ => ops_zero) ex_build ex_S ex_problem 0
      Heap.empty (by decide) (by simp [Heap.wf, Heap.empty])).2.1
      (ops_zero, fun _ _ s => s) rfl rfl).2.1,
   ((mkplan_construction_atomic ex_Lib (fun _ _ => ops_zero) ex_build ex_S ex_problem 0
      Heap.empty (by decide) (by simp [Heap.wf, Heap.empty])).2.1
      (ops_zero, fun _ _ s => s) rfl rfl).2.2.2.2.1⟩

end FFT.RankGeq2

namespace FFT.RankGeq2

/-- Each row of the decision table of `score` occurs: a rank-1 geometry and a
non-canonical split index under the no-rank-splits flag are BAD, a vector
stride above the largest transform index is UGLY, the plain 8 x 8 problem is
GOOD. -/
theorem score_examples :
    score ex_Lib ex_S (problem.rdft { ex_problem with sz := ex_tensor 1 })
      { nthr := 1, no_rank_splits := false, destroy_input := false } 0 = score_t.BAD ∧
    score ex_Lib ex_S (problem.rdft ex_problem)
      { nthr := 1, no_rank_splits := true, destroy_input := false } 0 = score_t.BAD ∧
    score ex_Lib_stride ex_S (problem.rdft (ex_vector_problem 64))
      { nthr := 1, no_rank_splits := false, destroy_input := false } 0 = score_t.UGLY ∧
    score ex_Lib_stride ex_S (problem.rdft (ex_vector_problem 1))
      { nthr := 1, no_rank_splits := false, destroy_input := false } 0 = score_t.GOOD ∧
    score ex_Lib ex_S (problem.rdft ex_problem)
      { nthr := 1, no_rank_splits := false, destroy_input := false } 0 = score_t.GOOD := by
  decide

/-- After a successful construction, `destroy` of the returned plan leaves the
live objects that were there before the attempt. -/
theorem destroy_after_mkplan {σ : Type} (L : Lib) (ops_add : opcnt → opcnt → opcnt)
    (build : child_problem → Option (opcnt × (Int → Int → σ → σ)))
    (ego : S) (p : problem_rdft) (spltrnk0 : Nat) (h0 : Heap)
    (b1 b2 : opcnt × (Int → Int → σ → σ))
    (happ : (applicable L ego (problem.rdft p) spltrnk0).1 = true) (hwf : h0.wf)
    (hb1 : build (child1 p (applicable L ego (problem.rdft p) spltrnk0).2 h0.next) = some b1)
    (hb2 : build (child2 p h0.next) = some b2) :
    ∃ pln, (mkplan L ops_add build ego (problem.rdft p) spltrnk0 h0).1 = some pln ∧
      (destroy pln (mkplan L ops_add build ego (problem.rdft p) spltrnk0 h0).2).live
        = h0.live := by
  rw [mkplan_both_children L ops_add build ego p spltrnk0 h0 b1 b2 happ hb1 hb2]
  refine ⟨_, rfl, ?_⟩
  simp only [destroy, plan_destroy, Heap.destroy, List.append_assoc]
  rw [live_of_attempt h0 hwf _ _ _ _ (by simp) (by simp)]
  simp

end FFT.RankGeq2

namespace FFT.Hc2hcDifThr

/-- The sweep length that `mkplan` stores: for a plan with `1 ≤ m` (a `uint`)
and a codelet of vector width 1 it is `(m - 1) / 2`. -/
theorem mkplan_mloop {σ : Type} (L : Lib σ) (ego : solver_hc2hc) (p : problem)
    (plnr : planner) (pln : plan_hc2hc σ)
    (hbase : L.mkplan_rdft_hc2hc ego p plnr = some pln)
    (hm : 1 ≤ pln.m) (hm32 : pln.m < UINT_MOD) (hvl : pln.slv.desc.genus.vl = 1) :
    (mkplan L ego p plnr).map (fun e => (e.mloop, e.nthr))
      = some ((pln.m - 1) / 2, plnr.nthr) := by
  simp only [mkplan, hbase, Option.map_some', hvl, Nat.div_one, usub_eq_of_le hm hm32]

end FFT.Hc2hcDifThr
